import Mathlib

/-!
Shallow embedding of the `query` package of github.com/kirill-scherba/sqlh
(final revision), covering the type introspector (`Name`, `fields`,
`getFieldName`, `getFieldType`, `isAutoIncrement`, `checkType`), the
statement synthesizer (`Table`, `Insert`, `Update`, `Select`, `Count`),
the value marshaller (`Args`, `ArgsAppay`, `setInt`) and the package-wide
`numRows` configuration (`SetNumRows`, `GetNumRows`).

A Go struct type is modelled as a tree: a `GoStruct` carries the type name
and its field list; each `GoField` carries the Go field name, the four
struct tags (`db`, `db_type`, `db_key`, `db_table_name`; the empty string
models an absent tag) and the field's Go type.  Machine integers are
modelled as mathematical integers together with their Go kind; Go
conversions wrap explicitly modulo 2^w.  Floating-point and time values
are carried as opaque codes: the code only ever copies them (no float
arithmetic occurs anywhere in the package), and the float32→float64
widening performed by `ArgsAppay` is exact, so copying codes is faithful
on every path the claims exercise.
-/

/-- The Go integer kinds (int, int8..int64, uint, uint8..uint64).
`int`/`uint` are modelled at 64 bits (the package targets 64-bit builds). -/
inductive IntKind where
  | i | i8 | i16 | i32 | i64
  | u | u8 | u16 | u32 | u64
deriving DecidableEq, Repr

def IntKind.width : IntKind → Nat
  | .i => 64 | .i8 => 8 | .i16 => 16 | .i32 => 32 | .i64 => 64
  | .u => 64 | .u8 => 8 | .u16 => 16 | .u32 => 32 | .u64 => 64

def IntKind.signed : IntKind → Bool
  | .i | .i8 | .i16 | .i32 | .i64 => true
  | .u | .u8 | .u16 | .u32 | .u64 => false

mutual

/-- The Go type of a struct field, as seen through `reflect`.  `strukt`
covers both a struct field and (with `isPtr = true`) a pointer to struct;
`tTime` is `time.Time` (kept atomic: no claim descends into it);
`tBytes` is `[]byte`; `tOtherSlice`/`tOther` stand for the remaining
unsupported kinds, carrying the Go type name used in error messages. -/
inductive GoType where
  | tInt (k : IntKind)
  | tFloat32
  | tFloat64
  | tBool
  | tString
  | tBytes
  | tTime
  | tComplex64
  | tComplex128
  | strukt (isPtr : Bool) (s : GoStruct)
  | tOtherSlice (goName : String)
  | tOther (goName : String)

/-- A Go struct type: its type name and its field list. -/
inductive GoStruct where
  | mk (name : String) (fs : GoFields)

/-- A field list (a first-order list, so that structural recursion over
the mutual tree is direct). -/
inductive GoFields where
  | nil
  | cons (f : GoField) (rest : GoFields)

/-- One struct field: Go field name, the `db`, `db_type`, `db_key` and
`db_table_name` tags ("" where the tag is absent), and the field type. -/
inductive GoField where
  | mk (goName db dbType dbKey dbTableName : String) (typ : GoType)

end

def GoField.goName : GoField → String
  | .mk n _ _ _ _ _ => n

def GoField.db : GoField → String
  | .mk _ d _ _ _ _ => d

def GoField.dbType : GoField → String
  | .mk _ _ t _ _ _ => t

def GoField.dbKey : GoField → String
  | .mk _ _ _ k _ _ => k

def GoField.dbTableName : GoField → String
  | .mk _ _ _ _ t _ => t

def GoField.typ : GoField → GoType
  | .mk _ _ _ _ _ t => t

def GoFields.toList : GoFields → List GoField
  | .nil => []
  | .cons f rest => f :: rest.toList

def GoFields.ofList : List GoField → GoFields
  | [] => .nil
  | f :: rest => .cons f (GoFields.ofList rest)

def GoStruct.name : GoStruct → String
  | .mk n _ => n

def GoStruct.fieldsL : GoStruct → GoFields
  | .mk _ fs => fs

def GoStruct.fieldList (s : GoStruct) : List GoField :=
  s.fieldsL.toList

/-- A runtime value of a struct field, i.e. the content of a boxed `any`.
Integers carry their Go kind (the dynamic type) and mathematical value;
float and time values are opaque codes (never computed with, only
copied); `vStructV` stands for a whole embedded-struct value boxed as one
`any` (its payload is never inspected by the package, so it is kept
opaque); `vOpaque` is the value of any other unsupported kind. -/
inductive GoValue where
  | vString (s : String)
  | vBool (b : Bool)
  | vF64 (x : Int)
  | vF32 (x : Int)
  | vInt (k : IntKind) (v : Int)
  | vBytes (bs : List Nat)
  | vTime (t : Int)
  | vC64 (re im : Int)
  | vC128 (re im : Int)
  | vStructV
  | vOpaque
deriving DecidableEq, Repr

/-- Go `strings.ToLower` (ASCII-faithful; the repository only uses ASCII
identifiers and tags). -/
def goToLower (s : String) : String :=
  String.mk (s.toList.map Char.toLower)

/-- Go `strings.TrimRight(s, cutset)` for a one-character cutset. -/
def trimRightChar (s : String) (c : Char) : String :=
  String.mk ((s.toList.reverse.dropWhile (fun x => x == c)).reverse)

/-- Go `strings.TrimSpace` (ASCII space; the package only ever trims
spaces introduced by its own formatting). -/
def trimSpace (s : String) : String :=
  String.mk (((s.toList.dropWhile (fun x => x == ' ')).reverse.dropWhile
    (fun x => x == ' ')).reverse)

/-- Go `strings.Join(elems, sep)`. -/
def strJoin (elems : List String) (sep : String) : String :=
  match elems with
  | [] => ""
  | [x] => x
  | x :: rest => x ++ sep ++ strJoin rest sep

/-- Go `strings.Repeat(s, n)`. -/
def strRepeat (s : String) (n : Nat) : String :=
  match n with
  | 0 => ""
  | n + 1 => s ++ strRepeat s n

/-- Substring test on character lists: `listHasPre p l` is true when `p`
is a prefix of `l` (Go `strings.HasPrefix` on the underlying bytes). -/
def listHasPre (p l : List Char) : Bool :=
  match p, l with
  | [], _ => true
  | _ :: _, [] => false
  | a :: p', b :: l' => a == b && listHasPre p' l'

/-- Go `strings.Contains(hay, pat)`. -/
def listContains (pat l : List Char) : Bool :=
  match l with
  | [] => pat.isEmpty
  | _ :: l' => listHasPre pat l || listContains pat l'

def strContains (hay pat : String) : Bool :=
  listContains pat.toList hay.toList

namespace query

/-- `query.ErrTypeIsNotStruct` (errors are modelled by their message). -/
def ErrTypeIsNotStruct : String :=
  "type is not a struct"

/-- `query.ErrWhereClauseRequiredForUpdate`. -/
def ErrWhereClauseRequiredForUpdate : String :=
  "where clause should be set in the Update statement"

/-- Source `getFieldName`: the `db` tag if set, the lower-cased Go field
name if the tag is empty, and exclusion (`none`) if the tag is `-`. -/
def getFieldName (f : GoField) : Option String :=
  if f.db == "" then some (goToLower f.goName)
  else if f.db == "-" then none
  else some f.db

/-- Source `isAutoIncrement`, translated exactly: the second disjunct
searches the LOWER-CASED tag for the upper-case needle `AUTO_INCREMENT`,
so it can never be true. -/
def isAutoIncrement (f : GoField) : Bool :=
  strContains (goToLower f.dbKey) "autoincrement" ||
    strContains (goToLower f.dbKey) "AUTO_INCREMENT"

/-- Source `getFieldType`: the `db_type` tag if set, else the SQL type
inferred from the field's Go kind, else an error. -/
def getFieldType (f : GoField) : Except String String :=
  if f.dbType == "" then
    match f.typ with
    | .tInt k =>
      if k.signed then .ok "integer"
      else if k == .u8 then .ok "tinyint"
      else .ok "bigint"
    | .tFloat32 => .ok "double"
    | .tFloat64 => .ok "double"
    | .tBool => .ok "bit"
    | .tString => .ok "text"
    | .tBytes => .ok "blob"
    | .tOtherSlice nm => .error ("unsupported slice type: " ++ nm)
    | .tTime => .ok "timestamp"
    | .strukt false s => .error ("unsupported struct type: " ++ s.name)
    | .strukt true _ => .error "unsupported type: ptr"
    | .tComplex64 => .ok "blob"
    | .tComplex128 => .ok "blob"
    | .tOther nm => .error ("unsupported type: " ++ nm)
  else .ok f.dbType

/-- First non-empty `db_table_name` tag in the field list (the `break` in
source `Name`'s scan loop). -/
def findTableTag : GoFields → Option String
  | .nil => none
  | .cons f rest =>
    if f.dbTableName == "" then findTableTag rest else some f.dbTableName

/-- Source `Name[T]`: lower-cased struct name, overridden by the first
non-empty `db_table_name` tag; if the FIRST field is a struct (or pointer
to struct) the whole resolution restarts from that inner type
(`goto begin`). -/
def Name : GoStruct → String
  | .mk nm .nil => goToLower nm
  | .mk _ (.cons (.mk _ _ _ _ _ (.strukt _ inner)) _) => Name inner
  | .mk nm (.cons f rest) =>
    match findTableTag (.cons f rest) with
    | some tag => tag
    | none => goToLower nm

mutual

/-- Source `fields[T]` from its loop start (`begin` label): field names
resolved by `getFieldName`, skipping autoincrement fields when `all` is
false and placeholder names `_`; when the FIRST field is itself a struct
(or pointer to struct) and is not skipped, resolution restarts from the
inner struct type. -/
def fields (all : Bool) : GoStruct → List String
  | .mk _ .nil => []
  | .mk _ (.cons (.mk gn db dt dk dtn (.strukt p inner)) rest) =>
    let f : GoField := .mk gn db dt dk dtn (.strukt p inner)
    if !all && isAutoIncrement f then fieldsRest all rest
    else
      match getFieldName f with
      | some nm =>
        if nm == "_" then fieldsRest all rest
        else fields all inner
      | none => fieldsRest all rest
  | .mk _ (.cons f rest) =>
    if !all && isAutoIncrement f then fieldsRest all rest
    else
      match getFieldName f with
      | some nm =>
        if nm == "_" then fieldsRest all rest
        else nm :: fieldsRest all rest
      | none => fieldsRest all rest

/-- The same loop for index positions i ≥ 1, where no descent happens. -/
def fieldsRest (all : Bool) : GoFields → List String
  | .nil => []
  | .cons f rest =>
    if !all && isAutoIncrement f then fieldsRest all rest
    else
      match getFieldName f with
      | some nm =>
        if nm == "_" then fieldsRest all rest
        else nm :: fieldsRest all rest
      | none => fieldsRest all rest

end

/-- Package variable `numRows` starts at 10. -/
def numRowsInit : Int :=
  10

/-- Source `SetNumRows`, as a transformer of the package state: calls
with `n <= 1` are ignored, otherwise the state becomes `n`. -/
def SetNumRows (cur : Int) (n : Int) : Int :=
  if n ≤ 1 then cur else n

/-- Source `GetNumRows`: returns the current package state. -/
def GetNumRows (cur : Int) : Int :=
  cur

/-- Source `checkType[T]`: `T` (or its pointer target) must be a struct. -/
def checkType : GoType → Bool
  | .strukt _ _ => true
  | _ => false

/-- Source `Paginator` (both fields are Go `int`). -/
structure Paginator where
  Offset : Int
  Limit : Int

/-- Source `Join`. -/
structure Join where
  Join : String
  Name : String
  Alias : String
  On : String
  Fields : List String
  Select : String

/-- Source `SelectAttr`.  `none` models a nil pointer field. -/
structure SelectAttr where
  Paginator : Option Paginator
  Wheres : List String
  WheresJoinOr : Bool
  GroupBy : String
  OrderBy : String
  Alias : String
  Joins : List Join
  Distinct : Bool
  Name : Option String

/-- Source `Table[T]`, field-list loop: resolved name, SQL type and
`db_key` tag joined and right-trimmed; a field whose resolved name is the
placeholder `_` contributes only its (right-trimmed) `db_key` text, and
only when that text is non-empty; a `getFieldType` failure aborts. -/
def tableFields : GoFields → Except String (List String)
  | .nil => .ok []
  | .cons f rest =>
    match getFieldName f with
    | none => tableFields rest
    | some nm =>
      match getFieldType f with
      | .error e => .error e
      | .ok ft =>
        if nm == "_" then
          if f.dbKey.length > 0 then
            match tableFields rest with
            | .error e => .error e
            | .ok l => .ok (trimRightChar f.dbKey ' ' :: l)
          else tableFields rest
        else
          match tableFields rest with
          | .error e => .error e
          | .ok l =>
            .ok (trimRightChar (goToLower nm ++ " " ++ ft ++ " " ++ f.dbKey) ' ' :: l)

/-- Source `Table[T]` for a struct type (for non-struct types the source
returns `ErrTypeIsNotStruct` before reaching this body). -/
def Table (s : GoStruct) : Except String String :=
  match tableFields s.fieldsL with
  | .error e => .error e
  | .ok dbFields =>
    .ok ("CREATE TABLE IF NOT EXISTS " ++ Name s ++ " (" ++
      strJoin dbFields ", " ++ ");")

/-- Source `Insert[T]` for a struct type. -/
def Insert (s : GoStruct) : String :=
  let fs := fields false s
  "INSERT INTO " ++ Name s ++ "(" ++ strJoin fs "," ++ ") VALUES(" ++
    trimRightChar (strRepeat "?," fs.length) ',' ++ ");"

/-- Source `Update[T]` for a struct type: refuses an empty where list,
otherwise `UPDATE <t> SET f1=?,...,fn=? WHERE w1? AND w2?...;`. -/
def Update (s : GoStruct) (wheres : List String) : Except String String :=
  let fs := fields false s
  if wheres.length == 0 then .error ErrWhereClauseRequiredForUpdate
  else
    .ok ("UPDATE " ++ Name s ++ " SET " ++ (strJoin fs "=?," ++ "=?") ++
      " WHERE " ++ (strJoin wheres "? AND " ++ "?") ++ ";")

/-- The `// Offset and limit` block of source `Select[T]`: no clause when
the paginator is nil or when both limit and offset are ≤ 0, else
`LIMIT <limit, or the package numRows when limit ≤ 0> OFFSET <offset>`. -/
def paginatorClause (numRows : Int) : Option Paginator → String
  | none => ""
  | some p =>
    if p.Limit ≤ 0 && p.Offset ≤ 0 then ""
    else
      " LIMIT " ++ toString (if p.Limit > 0 then p.Limit else numRows) ++
        " OFFSET " ++ toString p.Offset

/-- One join clause of source `Select[T]`'s join loop. -/
def joinClause (j : Join) : String :=
  let table := if j.Select.length > 0 then "(" ++ j.Select ++ ")" else j.Name
  " " ++ trimSpace (j.Join ++ " join") ++ " " ++ table ++ " " ++ j.Alias ++
    " on " ++ j.On

/-- Source `Select[T]` for a struct type; the package variable `numRows`
is passed explicitly as the first argument. -/
def Select (numRows : Int) (s : GoStruct) (attr : Option SelectAttr) : String :=
  let name0 := Name s
  let fields0 := fields true s
  match attr with
  | none => "SELECT " ++ strJoin fields0 ", " ++ " FROM " ++ name0 ++ ";"
  | some a =>
    let name1 :=
      match a.Name with
      | some n => if n.length > 0 then n else name0
      | none => name0
    let distinct := if a.Distinct then "DISTINCT " else ""
    let name2 := if a.Alias.length > 0 then name1 ++ " " ++ a.Alias else name1
    let joins := (a.Joins.map joinClause).foldl (fun acc x => acc ++ x) ""
    let joinsFields := (a.Joins.map Join.Fields).flatten
    let whereStr :=
      if a.Wheres.length > 0 then
        " WHERE " ++ strJoin a.Wheres (if a.WheresJoinOr then " OR " else " AND ")
      else ""
    let groupby := if a.GroupBy.length > 0 then " GROUP BY " ++ a.GroupBy else ""
    let orderby := if a.OrderBy.length > 0 then " ORDER BY " ++ a.OrderBy else ""
    let limit := paginatorClause numRows a.Paginator
    let fields1 :=
      if a.Alias.length > 0 then fields0.map (fun f => a.Alias ++ "." ++ f)
      else fields0
    let fields2 := fields1 ++ joinsFields
    "SELECT " ++ distinct ++ strJoin fields2 ", " ++ " FROM " ++ name2 ++
      joins ++ whereStr ++ groupby ++ orderby ++ limit ++ ";"

/-- Source `Count[T]` for a struct type: note the lower-case `from` and
`where` keywords and the `" and "` where-joiner in the source. -/
def Count (s : GoStruct) (attr : Option SelectAttr) : String :=
  let whereStr :=
    match attr with
    | none => ""
    | some a =>
      let w := if a.Wheres.length > 0 then strJoin a.Wheres " and " else ""
      if w.length > 0 then " where " ++ w else ""
  "SELECT count(*) from " ++ Name s ++ whereStr ++ ";"

/-- Wrap an integer into the unsigned range `[0, 2^w)` (Go conversion to
an unsigned type, and `reflect.Value.SetUint`'s truncation). -/
def wrapU (w : Nat) (v : Int) : Int :=
  v % ((2 : Int) ^ w)

/-- Wrap an integer into the signed range `[-2^(w-1), 2^(w-1))` (Go
conversion to a signed type, and `reflect.Value.SetInt`'s truncation). -/
def wrapS (w : Nat) (v : Int) : Int :=
  (v + (2 : Int) ^ (w - 1)) % ((2 : Int) ^ w) - (2 : Int) ^ (w - 1)

/-- `encoding/gob` serialization of one complex component, modelled as an
opaque injective byte encoding (sign byte then magnitude). -/
def gobEncInt (z : Int) : List Nat :=
  [if z < 0 then 1 else 0, z.natAbs]

/-- `encoding/gob` serialization of a complex value (pair of component
codes); the gob wire format itself is a stdlib external, so any injective
encoding models it faithfully for this package. -/
def gobEncodeComplex (re im : Int) : List Nat :=
  gobEncInt re ++ gobEncInt im

/-- `encoding/gob` deserialization of a complex value; a blob that was
not produced by `gobEncodeComplex` leaves the zero value, as the ignored
`Decode` error does in the source. -/
def gobDecodeComplex : List Nat → Int × Int
  | [s1, a1, s2, a2] =>
    ((if s1 == 1 then -(a1 : Int) else (a1 : Int)),
      (if s2 == 1 then -(a2 : Int) else (a2 : Int)))
  | _ => (0, 0)

/-- Go `string(bytes)` conversion (modelled byte-per-char; exact UTF-8
handling is a language external never exercised by the claims). -/
def bytesToString (bs : List Nat) : String :=
  String.mk (bs.map (fun n => Char.ofNat n))

/-- Source `convertBytesToTime`: parses `"2006-01-02 15:04:05"`-layout
text via `time.Parse`, returning the zero time on failure.  `time.Parse`
is a stdlib external and no claim exercises this path, so the model
returns the zero time code. -/
def convertBytesToTime (_ : List Nat) : Int :=
  0

/-- The zero `GoValue` of each Go type (`reflect.Value.SetZero`). -/
def zeroValue : GoType → GoValue
  | .tString => .vString ""
  | .tBool => .vBool false
  | .tFloat64 => .vF64 0
  | .tFloat32 => .vF32 0
  | .tInt k => .vInt k 0
  | .tBytes => .vBytes []
  | .tTime => .vTime 0
  | .tComplex64 => .vC64 0 0
  | .tComplex128 => .vC128 0 0
  | .strukt _ _ => .vStructV
  | .tOtherSlice _ => .vOpaque
  | .tOther _ => .vOpaque

/-- Field-skip test shared by source `Args` and `ArgsAppay`: the `db` tag
is `-`, or the Go field name is `_`. -/
def skipArg (f : GoField) : Bool :=
  f.db == "-" || f.goName == "_"

def isComplexKind : GoType → Bool
  | .tComplex64 | .tComplex128 => true
  | _ => false

/-- The argument value source `Args` produces for one field: the field's
value, except that a complex-kind field is gob-serialized to bytes.  (In
Go the boxed value always has the field's type, so the fallback arms are
unreachable on well-typed records.) -/
def argValue (f : GoField) (v : GoValue) : GoValue :=
  if isComplexKind f.typ then
    match v with
    | .vC64 re im => .vBytes (gobEncodeComplex re im)
    | .vC128 re im => .vBytes (gobEncodeComplex re im)
    | _ => .vBytes []
  else v

/-- Source `Args` field loop over (field, current value) pairs: skip
fields tagged `db:"-"` or named `_`; a complex value is serialized to
bytes; with `forWrite` true, autoincrement fields are also skipped and
raw values are collected; with `forWrite` false, each kept value is a
freshly boxed scan slot (the model identifies a box with its content). -/
def argsGo (forWrite : Bool) : List (GoField × GoValue) → List GoValue
  | [] => []
  | (f, v) :: rest =>
    if skipArg f then argsGo forWrite rest
    else
      let arg := argValue f v
      if forWrite then
        if isAutoIncrement f then argsGo forWrite rest
        else arg :: argsGo forWrite rest
      else arg :: argsGo forWrite rest

/-- Source `Args` for a struct-typed row given as the list of its field
values (for a non-struct row the source returns `ErrTypeIsNotStruct`
before reaching this loop; pointers are transparently dereferenced by
`getRowVal`). -/
def Args (s : GoStruct) (vs : List GoValue) (forWrite : Bool) : List GoValue :=
  argsGo forWrite (List.zip s.fieldList vs)

/-- Outcome of one field assignment inside source `ArgsAppay`'s switch:
a new field value and continue; an explicit error return (the `[]byte`
type-mismatch arm); or a reflect panic, recovered by the deferred
handler. -/
inductive SetOutcome where
  | okv (v : GoValue)
  | errReturn (msg : String)
  | panicked (msg : String)

/-- Source `setInt[T]`: switch on the FIELD's kind; signed fields get
`SetInt(int64(v))`, unsigned fields `SetUint(uint64(v))`, boolean fields
`SetBool(v == 1)`; any other field kind is silently left unchanged (the
switch has no default arm). -/
def setInt (fk : GoType) (old : GoValue) (v : Int) : GoValue :=
  match fk with
  | .tInt k =>
    if k.signed then .vInt k (wrapS k.width (wrapS 64 v))
    else .vInt k (wrapU k.width (wrapU 64 v))
  | .tBool => .vBool (v == 1)
  | _ => old

/-- The big type-switch of source `ArgsAppay`, applied to one field of
type `k` holding `old`, with scanned argument `arg`.  `reflect` setters
panic on a kind mismatch (`SetString`/`SetBool`/`SetFloat`/`Set`); the
float32→float64 widening is exact so value codes are copied; the `[]byte`
arm dispatches on the field kind and returns an error on mismatch; any
other dynamic type falls to `SetZero`. -/
def setField (k : GoType) (old : GoValue) (arg : GoValue) : SetOutcome :=
  match arg with
  | .vString s =>
    match k with
    | .tString => .okv (.vString s)
    | _ => .panicked "reflect: call of reflect.Value.SetString on wrong kind"
  | .vTime t =>
    match k with
    | .tTime => .okv (.vTime t)
    | _ => .panicked "reflect: call of reflect.Value.Set with wrong type"
  | .vBool b =>
    match k with
    | .tBool => .okv (.vBool b)
    | _ => .panicked "reflect: call of reflect.Value.SetBool on wrong kind"
  | .vF64 x =>
    match k with
    | .tFloat64 => .okv (.vF64 x)
    | .tFloat32 => .okv (.vF32 x)
    | _ => .panicked "reflect: call of reflect.Value.SetFloat on wrong kind"
  | .vF32 x =>
    match k with
    | .tFloat64 => .okv (.vF64 x)
    | .tFloat32 => .okv (.vF32 x)
    | _ => .panicked "reflect: call of reflect.Value.SetFloat on wrong kind"
  | .vInt _ v => .okv (setInt k old v)
  | .vBytes bs =>
    match k with
    | .tBytes => .okv (.vBytes bs)
    | .tString => .okv (.vString (bytesToString bs))
    | .tComplex128 => .okv (.vC128 (gobDecodeComplex bs).1 (gobDecodeComplex bs).2)
    | .tComplex64 => .okv (.vC64 (gobDecodeComplex bs).1 (gobDecodeComplex bs).2)
    | .tTime => .okv (.vTime (convertBytesToTime bs))
    | _ => .errReturn "type mismatch for field: expected []byte for DB type []byte"
  | _ => .okv (zeroValue k)

def keepVals (l : List (GoField × GoValue)) : List GoValue :=
  l.map Prod.snd

/-- Source `ArgsAppay` field loop: field `i` is skipped when tagged
`db:"-"` or named `_`, otherwise the loop reads `args[i]` — the RAW field
index — and assigns via the type switch.  An out-of-range index (or any
reflect panic) is recovered by the deferred handler and surfaces as a
non-nil error, leaving the remaining fields untouched; the `[]byte`
mismatch arm returns its error directly. -/
def argsAppayGo (args : List GoValue) :
    Nat → List (GoField × GoValue) → List GoValue × Option String
  | _, [] => ([], none)
  | i, (f, old) :: rest =>
    if skipArg f then
      let r := argsAppayGo args (i + 1) rest
      (old :: r.1, r.2)
    else
      match args[i]? with
      | none =>
        (old :: keepVals rest, some "runtime error: index out of range")
      | some arg =>
        match setField f.typ old arg with
        | .okv nv =>
          let r := argsAppayGo args (i + 1) rest
          (nv :: r.1, r.2)
        | .errReturn m => (old :: keepVals rest, some m)
        | .panicked m => (old :: keepVals rest, some m)

/-- Source `ArgsAppay` for a pointer to a struct-typed row given as the
list of its current field values: returns the updated field values and
the error (`none` for nil).  (For a non-struct target the source returns
`ErrTypeIsNotStruct` before reaching the loop.) -/
def ArgsAppay (s : GoStruct) (vs : List GoValue) (args : List GoValue) :
    List GoValue × Option String :=
  argsAppayGo args 0 (List.zip s.fieldList vs)

end query

/-- The struct type `SomeTable` of the repository's `TestSelect` /
`TestTableName` tests (fields `Name`, `Cost`, `Age`, `Time`). -/
def SomeTableT : GoStruct := .mk "SomeTable" (.ofList [
  .mk "Name" "name" "" "" "" .tString,
  .mk "Cost" "cost" "" "" "" .tFloat64,
  .mk "Age" "age" "" "" "" (.tInt .i32),
  .mk "Time" "time" "" "" "" .tTime])

/-- The `SelectAttr` used by the repository's `Test Select` subtest. -/
def attrT : query.SelectAttr :=
  ⟨none, ["t.name = ?", "t.cost > ?"], false, "", "", "t", [], false, none⟩


/-- The struct type `TestMySQLTable` of the repository's MySQL test:
an `AUTO_INCREMENT`-tagged id, two plain columns, and a placeholder `_`
field carrying a composite-key clause. -/
def TestMySQLTableT : GoStruct := .mk "TestMySQLTable" (.ofList [
  .mk "ID" "id" "" "not null primary key AUTO_INCREMENT" "" (.tInt .i64),
  .mk "Name" "name" "" "not null" "" .tString,
  .mk "Data" "data" "" "" "" .tBytes,
  .mk "_" "" "" "unique KEY(name(255))" "" .tBool])








namespace query

/-- Replace only the `Paginator` component of a `SelectAttr`. -/
def withPag (a : SelectAttr) (p : Option Paginator) : SelectAttr :=
  ⟨p, a.Wheres, a.WheresJoinOr, a.GroupBy, a.OrderBy, a.Alias, a.Joins,
    a.Distinct, a.Name⟩

/-- Everything source `Select[T]` emits before the LIMIT/OFFSET clause
(it does not depend on the paginator). -/
def selectPrefix (s : GoStruct) (a : SelectAttr) : String :=
  let name0 := Name s
  let fields0 := fields true s
  let name1 :=
    match a.Name with
    | some n => if n.length > 0 then n else name0
    | none => name0
  let distinct := if a.Distinct then "DISTINCT " else ""
  let name2 := if a.Alias.length > 0 then name1 ++ " " ++ a.Alias else name1
  let joins := (a.Joins.map joinClause).foldl (fun acc x => acc ++ x) ""
  let joinsFields := (a.Joins.map Join.Fields).flatten
  let whereStr :=
    if a.Wheres.length > 0 then
      " WHERE " ++ strJoin a.Wheres (if a.WheresJoinOr then " OR " else " AND ")
    else ""
  let groupby := if a.GroupBy.length > 0 then " GROUP BY " ++ a.GroupBy else ""
  let orderby := if a.OrderBy.length > 0 then " ORDER BY " ++ a.OrderBy else ""
  let fields1 :=
    if a.Alias.length > 0 then fields0.map (fun f => a.Alias ++ "." ++ f)
    else fields0
  let fields2 := fields1 ++ joinsFields
  "SELECT " ++ distinct ++ strJoin fields2 ", " ++ " FROM " ++ name2 ++
    joins ++ whereStr ++ groupby ++ orderby

end query

/-- The COUNT template exactly as claim C5 words it: upper-case `FROM`
and `WHERE` keywords (fragments joined as in §4.2, i.e. with `" and "`,
matching the source's joiner so that only the keyword casing is at
stake). -/
def countTemplateSpecUpper (s : GoStruct) (attr : Option query.SelectAttr) : String :=
  match attr with
  | none => "SELECT count(*) FROM " ++ query.Name s ++ ";"
  | some a =>
    if (strJoin a.Wheres " and ").length > 0 then
      "SELECT count(*) FROM " ++ query.Name s ++ " WHERE " ++
        strJoin a.Wheres " and " ++ ";"
    else "SELECT count(*) FROM " ++ query.Name s ++ ";"

/-- The COUNT template with the keyword casing the source actually emits:
lower-case `from` and `where`, fragments joined with `" and "`, the
where clause present exactly when the joined fragment string is
non-empty. -/
def countTemplateLower (s : GoStruct) (attr : Option query.SelectAttr) : String :=
  match attr with
  | none => "SELECT count(*) from " ++ query.Name s ++ ";"
  | some a =>
    if (strJoin a.Wheres " and ").length > 0 then
      "SELECT count(*) from " ++ query.Name s ++ " where " ++
        strJoin a.Wheres " and " ++ ";"
    else "SELECT count(*) from " ++ query.Name s ++ ";"

/-- Number of (possibly overlapping) occurrences of `p` in `l`: one per
position of `l` at which `p` is a prefix of the remaining suffix. -/
def occCount (p : List Char) : List Char → Nat
  | [] => 0
  | c :: l' => (if listHasPre p (c :: l') then 1 else 0) + occCount p l'

/-- Occurrence count of a pattern inside a string. -/
def strOcc (pat s : String) : Nat :=
  occCount pat.toList s.toList

/-- Does the boxed dynamic value match the field's static Go type (with
integers in their kind's range)?  In Go this holds by construction for
every value read out of a struct field by `reflect`. -/
def validVal : GoType → GoValue → Bool
  | .tString, .vString _ => true
  | .tBool, .vBool _ => true
  | .tFloat64, .vF64 _ => true
  | .tFloat32, .vF32 _ => true
  | .tInt k, .vInt k' v =>
    k == k' &&
      (if k.signed then
        decide (-((2 : Int) ^ (k.width - 1)) ≤ v ∧ v < (2 : Int) ^ (k.width - 1))
      else decide (0 ≤ v ∧ v < (2 : Int) ^ k.width))
  | .tBytes, .vBytes _ => true
  | .tTime, .vTime _ => true
  | .tComplex64, .vC64 _ _ => true
  | .tComplex128, .vC128 _ _ => true
  | .strukt _ _, .vStructV => true
  | .tOtherSlice _, .vOpaque => true
  | .tOther _, .vOpaque => true
  | _, _ => false

/-- A well-formed record for a field list: one matching value per field. -/
def validRecord (fs : List GoField) (vs : List GoValue) : Bool :=
  fs.length == vs.length &&
    (List.zip fs vs).all (fun p => validVal p.1.typ p.2)

/-- The scalar field types claim C2 enumerates: every kind the marshaller
supports except embedded structs and the unsupported fallbacks. -/
def supportedScalar : GoType → Bool
  | .tString | .tBool | .tFloat32 | .tFloat64 | .tBytes | .tTime
  | .tComplex64 | .tComplex128 | .tInt _ => true
  | _ => false

/-- Field-list side of claim C2's hypotheses: every field is included by
the marshaller and has a supported scalar type. -/
def allIncludedScalar (fs : List GoField) : Bool :=
  fs.all (fun f => !query.skipArg f && supportedScalar f.typ)

/-- The inclusion test of `fields`/`fieldsRest` (name side): the field
resolves to a name that is neither excluded (`db:"-"`) nor the
placeholder `_`. -/
def inclName (f : GoField) : Bool :=
  match query.getFieldName f with
  | none => false
  | some nm => nm != "_"

/-- The inclusion test of `Args`/`ArgsAppay` (marshaller side). -/
def inclArgs (f : GoField) : Bool :=
  !query.skipArg f

/-- Is the field's Go type a struct or pointer-to-struct (the kinds that
trigger first-field descent in `Name` and `fields`)? -/
def isStructKind : GoType → Bool
  | .strukt _ _ => true
  | _ => false

/-- "The first field, if any, is not an embedded struct". -/
def headNotStruct : List GoField → Bool
  | [] => true
  | f :: _ => !isStructKind f.typ

/-- The resolved column name of an included field (`""` never occurs for
included fields). -/
def resolvedName (f : GoField) : String :=
  (query.getFieldName f).getD ""

/-- Claim C9's alignment condition on a field list: no skipped field is
declared before an included one (equivalently: once a field is skipped,
all later fields are skipped too). -/
def alignedDecl (fs : List GoField) : Bool :=
  (fs.dropWhile (fun f => !query.skipArg f)).all query.skipArg

/-- Number of marshaller-included fields. -/
def countIncl (fs : List GoField) : Nat :=
  fs.countP (fun f => inclArgs f)

/-- Reference semantics for `ArgsAppay`'s loop in which the j-th argument
is applied to the j-th INCLUDED field (arguments are consumed
positionally instead of being indexed by the raw field index). -/
def applyCompact : List GoValue → List (GoField × GoValue) →
    List GoValue × Option String
  | _, [] => ([], none)
  | args, (f, old) :: rest =>
    if query.skipArg f then
      let r := applyCompact args rest
      (old :: r.1, r.2)
    else
      match args with
      | [] => (old :: query.keepVals rest, some "runtime error: index out of range")
      | a :: args' =>
        match query.setField f.typ old a with
        | .okv nv =>
          let r := applyCompact args' rest
          (nv :: r.1, r.2)
        | .errReturn m => (old :: query.keepVals rest, some m)
        | .panicked m => (old :: query.keepVals rest, some m)

/-- Inner struct type used by the C1 counterexample: three plain string
columns. -/
def Inner3T : GoStruct := .mk "Inner3" (.ofList [
  .mk "A" "a" "" "" "" .tString,
  .mk "B" "b" "" "" "" .tString,
  .mk "C" "c" "" "" "" .tString])

/-- Outer struct type used by the C1 counterexample: an embedded struct
as FIRST field (the composite/join shape the repository's tests build),
followed by one plain column. -/
def OuterT : GoStruct := .mk "Outer" (.ofList [
  .mk "Emb" "" "" "" "" (.strukt false Inner3T),
  .mk "Extra" "extra" "" "" "" .tString])

/-- A record value of `OuterT`. -/
def outerVals : List GoValue := [.vStructV, .vString "x"]

/-- Struct type used by the C4 counterexample: a column whose `db` tag is
the literal string `WHERE` (tags are emitted verbatim into SQL). -/
def WhereTagT : GoStruct := .mk "WhereTag" (.ofList [
  .mk "A" "WHERE" "" "" "" .tString])

/-- A record value of `TestMySQLTableT` (id 1, name Alice, two data
bytes, placeholder false). -/
def testMySQLVals : List GoValue :=
  [.vInt .i64 1, .vString "Alice", .vBytes [1, 2], .vBool false]

/-- The struct type `User` with one untagged field. -/
def UserT : GoStruct := .mk "User" (.ofList [.mk "Name" "name" "" "" "" .tString])

/-- The repository's `TestTableName/By tag` struct: a `db_table_name`
tag on its first field. -/
def SomeTableTaggedT : GoStruct := .mk "SomeTable" (.ofList [
  .mk "Name" "name" "" "" "some_table" .tString,
  .mk "Cost" "cost" "" "" "" .tFloat64])

/-- An inner struct carrying its own table-name annotation. -/
def InnerTaggedT : GoStruct := .mk "Inner" (.ofList [
  .mk "Name" "name" "" "" "some_table" .tString])

/-- A composite type whose FIRST field is the embedded `InnerTaggedT`. -/
def OuterEmbT : GoStruct := .mk "Outer" (.ofList [
  .mk "Inner" "" "" "" "" (.strukt false InnerTaggedT),
  .mk "Extra" "extra" "" "" "" .tString])

/-- A record value of `SomeTableT`. -/
def someTableVals : List GoValue :=
  [.vString "John", .vF64 100, .vInt .i32 20, .vTime 5]

/-- The boxed-argument shape `Args` produces for a field of type `k`:
complex values are gob-serialized, everything else is boxed as is. -/
def boxValue (k : GoType) (v : GoValue) : GoValue :=
  if query.isComplexKind k then
    match v with
    | .vC64 re im => .vBytes (query.gobEncodeComplex re im)
    | .vC128 re im => .vBytes (query.gobEncodeComplex re im)
    | _ => .vBytes []
  else v

/-- A struct type with one field of every supported scalar kind. -/
def AllKindsT : GoStruct := .mk "AllKinds" (.ofList [
  .mk "S" "s" "" "" "" .tString,
  .mk "B" "b" "" "" "" .tBool,
  .mk "F32" "f32" "" "" "" .tFloat32,
  .mk "F64" "f64" "" "" "" .tFloat64,
  .mk "I" "fi" "" "" "" (.tInt .i),
  .mk "I8" "fi8" "" "" "" (.tInt .i8),
  .mk "I16" "fi16" "" "" "" (.tInt .i16),
  .mk "I32" "fi32" "" "" "" (.tInt .i32),
  .mk "I64" "fi64" "" "" "" (.tInt .i64),
  .mk "U" "fu" "" "" "" (.tInt .u),
  .mk "U8" "fu8" "" "" "" (.tInt .u8),
  .mk "U16" "fu16" "" "" "" (.tInt .u16),
  .mk "U32" "fu32" "" "" "" (.tInt .u32),
  .mk "U64" "fu64" "" "" "" (.tInt .u64),
  .mk "Bs" "bs" "" "" "" .tBytes,
  .mk "T" "t" "" "" "" .tTime,
  .mk "C64" "c64" "" "" "" .tComplex64,
  .mk "C128" "c128" "" "" "" .tComplex128])

/-- A record value of `AllKindsT` exercising boundary values (most
negative int8, maximal uint64, negative complex components). -/
def allKindsVals : List GoValue :=
  [.vString "x", .vBool true, .vF32 3, .vF64 4,
   .vInt .i (-5), .vInt .i8 (-128), .vInt .i16 7, .vInt .i32 8, .vInt .i64 9,
   .vInt .u 10, .vInt .u8 255, .vInt .u16 12, .vInt .u32 13,
   .vInt .u64 18446744073709551615,
   .vBytes [1, 2, 3], .vTime 99, .vC64 1 (-2), .vC128 (-3) 4]

/-- A struct whose FIRST field is excluded with `db:"-"`, followed by two
included columns — the misaligned declaration shape of claim C9. -/
def DashFirstT : GoStruct := .mk "DashFirst" (.ofList [
  .mk "Secret" "-" "" "" "" .tString,
  .mk "A" "a" "" "" "" .tString,
  .mk "B" "b" "" "" "" .tString])

/-- A record value of `DashFirstT`. -/
def dashVals : List GoValue := [.vString "s", .vString "x", .vString "y"]

/-- Claim C10: the default row-fetch count starts at 10; `SetNumRows n`
is a no-op for `n ≤ 1` and stores `n` otherwise; `GetNumRows` returns the
current value; hence after any call sequence the value stays strictly
greater than 1. -/
theorem C10_default_numrows_invariant :
    query.numRowsInit = 10 ∧
    (∀ s n : Int, query.SetNumRows s n = if n ≤ 1 then s else n) ∧
    (∀ s : Int, query.GetNumRows s = s) ∧
    (∀ calls : List Int,
      1 < query.GetNumRows (calls.foldl query.SetNumRows query.numRowsInit)) := by
  refine ⟨rfl, fun s n => rfl, fun s => rfl, fun calls => ?_⟩
  have h : ∀ (l : List Int) (s : Int), 1 < s → 1 < l.foldl query.SetNumRows s := by
    intro l
    induction l with
    | nil => intro s hs; simpa using hs
    | cons a t ih =>
      intro s hs
      simp only [List.foldl_cons]
      apply ih
      unfold query.SetNumRows
      split
      · exact hs
      · omega
  simpa [query.GetNumRows, query.numRowsInit] using h calls 10 (by norm_num)

/-- Claim C3 (the code contradicts the claim and its own doc comment):
`isAutoIncrement` lower-cases the `db_key` tag and then searches it for
the UPPER-CASE needle `AUTO_INCREMENT` — a check that can never succeed —
so tags spelled `AUTO_INCREMENT` or `auto_increment` are NOT detected
(only spellings containing `autoincrement` are), and the repository's own
MySQL test type consequently keeps its `AUTO_INCREMENT` id column in the
INSERT column list and in the write-direction argument list. -/
theorem C3_code_bug_eval :
    query.isAutoIncrement (.mk "ID" "id" "" "AUTO_INCREMENT" "" (.tInt .i64)) = false ∧
    query.isAutoIncrement (.mk "ID" "id" "" "auto_increment" "" (.tInt .i64)) = false ∧
    query.isAutoIncrement
      (.mk "ID" "id" "" "not null primary key AUTO_INCREMENT" "" (.tInt .i64)) = false ∧
    query.isAutoIncrement
      (.mk "ID" "id" "" "not null primary key autoincrement" "" (.tInt .i64)) = true ∧
    query.fields false TestMySQLTableT = ["id", "name", "data"] ∧
    query.Insert TestMySQLTableT =
      "INSERT INTO testmysqltable(id,name,data) VALUES(?,?,?);" ∧
    query.Args TestMySQLTableT testMySQLVals true =
      [.vInt .i64 1, .vString "Alice", .vBytes [1, 2]] := by
  decide

/-- Claim C1 (counterexample): for a struct whose FIRST field is an
embedded struct (the composite/join record shape), `fields` descends into
the inner type while `Args` does not, so the Insert/Select column list
and the write-direction argument list do not even have the same length. -/
theorem C1_counterexample :
    query.fields false OuterT = ["a", "b", "c"] ∧
    query.Args OuterT outerVals true = [.vStructV, .vString "x"] ∧
    ((query.fields false OuterT).length ==
        (query.Args OuterT outerVals true).length) = false := by
  decide

/-- Claim C5 (counterexample): `Count` emits lower-case `from`/`where`,
so its output does not match the claimed template with literal `FROM` and
`WHERE` keyword casing. -/
theorem C5_counterexample :
    query.Count SomeTableT (some attrT) =
      "SELECT count(*) from sometable where t.name = ? and t.cost > ?;" ∧
    countTemplateSpecUpper SomeTableT (some attrT) =
      "SELECT count(*) FROM sometable WHERE t.name = ? and t.cost > ?;" ∧
    (query.Count SomeTableT (some attrT) ==
        countTemplateSpecUpper SomeTableT (some attrT)) = false := by
  decide

/-- Claim C5 (amended): for every struct type and select specification,
`Count` returns exactly `SELECT count(*) from <table>[ where <fragments
joined with " and ">];` — the template with LOWER-case `from`/`where`
keywords, the where clause appearing exactly when the joined fragment
string is non-empty. -/
theorem C5_amended_count_template :
    ∀ (s : GoStruct) (attr : Option query.SelectAttr),
      query.Count s attr = countTemplateLower s attr := by
  intro s attr
  cases attr with
  | none => simp [query.Count, countTemplateLower]
  | some a =>
    simp only [query.Count, countTemplateLower]
    by_cases h1 : a.Wheres.length > 0
    · by_cases h2 : (strJoin a.Wheres " and ").length > 0
      · simp [h1, h2, String.append_assoc]
      · simp [h1, h2]
    · have h0 : a.Wheres = [] := List.length_eq_zero.mp (by omega)
      simp [h0, strJoin]

/-- `Select` factors as its paginator-independent prefix, the LIMIT
clause, and the closing semicolon. -/
theorem select_decomp (nr : Int) (s : GoStruct) (a : query.SelectAttr) :
    query.Select nr s (some a) =
      query.selectPrefix s a ++ query.paginatorClause nr a.Paginator ++ ";" := by
  simp [query.Select, query.selectPrefix, String.append_assoc]

/-- Claim C6: with `Paginator{Offset:0, Limit:0}` `Select` emits no
LIMIT/OFFSET clause (the output is the same as with a nil paginator, in
fact for any limit ≤ 0 with offset ≤ 0 the clause is empty); with
`Paginator{Offset:5, Limit:10}` the output ends in `LIMIT 10 OFFSET 5`;
in every other case the clause is `LIMIT <limit, or the configured
default when limit ≤ 0> OFFSET <offset>`. -/
theorem C6_pagination_boundary :
    (∀ (nr : Int) (s : GoStruct) (a : query.SelectAttr),
      query.Select nr s (some (query.withPag a (some ⟨0, 0⟩))) =
        query.Select nr s (some (query.withPag a none))) ∧
    (∀ (nr : Int) (s : GoStruct) (a : query.SelectAttr),
      query.Select nr s (some (query.withPag a (some ⟨5, 10⟩))) =
        query.selectPrefix s (query.withPag a none) ++ " LIMIT 10 OFFSET 5" ++ ";" ∧
      query.Select nr s (some (query.withPag a none)) =
        query.selectPrefix s (query.withPag a none) ++ ";") ∧
    (∀ (nr : Int) (p : query.Paginator), p.Limit ≤ 0 → p.Offset ≤ 0 →
      query.paginatorClause nr (some p) = "") ∧
    (∀ (nr : Int) (p : query.Paginator), ¬(p.Limit ≤ 0 ∧ p.Offset ≤ 0) →
      query.paginatorClause nr (some p) =
        " LIMIT " ++ toString (if p.Limit > 0 then p.Limit else nr) ++
          " OFFSET " ++ toString p.Offset) := by
  refine ⟨?_, ?_, ?_, ?_⟩
  · intro nr s a
    rw [select_decomp, select_decomp]
    rfl
  · intro nr s a
    constructor
    · rw [select_decomp]
      rfl
    · rw [select_decomp]
      show _ ++ query.paginatorClause nr none ++ ";" = _
      rw [show query.paginatorClause nr none = "" from rfl, String.append_empty]
  · intro nr p h1 h2
    simp [query.paginatorClause, h1, h2]
  · intro nr p h
    push_neg at h
    simp only [query.paginatorClause]
    rw [if_neg (by
      simp only [Bool.and_eq_true, decide_eq_true_eq, not_and, Int.not_le]
      exact h)]

/-- Witness for C6: the hypothesised conjuncts applied at concrete
paginators (limit -3 with offset 0 → no clause; offset 7 with limit 0 →
the configured default 10 is used). -/
theorem C6_pagination_witness :
    query.paginatorClause 10 (some ⟨0, -3⟩) = "" ∧
    query.paginatorClause 10 (some ⟨7, 0⟩) = " LIMIT 10 OFFSET 7" := by
  constructor
  · exact C6_pagination_boundary.2.2.1 10 ⟨0, -3⟩ (by norm_num) (by norm_num)
  · exact (C6_pagination_boundary.2.2.2 10 ⟨7, 0⟩ (by norm_num)).trans (by decide)

/-- Unfolding lemma for `fieldsRest` on a cons cell. -/
theorem fieldsRest_cons (all : Bool) (f : GoField) (rest : GoFields) :
    query.fieldsRest all (.cons f rest) =
      if !all && query.isAutoIncrement f then query.fieldsRest all rest
      else
        match query.getFieldName f with
        | some nm => if nm == "_" then query.fieldsRest all rest
            else nm :: query.fieldsRest all rest
        | none => query.fieldsRest all rest := rfl

/-- When the first field is not a struct kind, `fields` performs no
descent and reduces to the plain loop body. -/
theorem fields_cons_not_struct (all : Bool) (nm : String) (f : GoField) (rest : GoFields)
    (h : ¬ isStructKind f.typ = true) :
    query.fields all (.mk nm (.cons f rest)) =
      if !all && query.isAutoIncrement f then query.fieldsRest all rest
      else
        match query.getFieldName f with
        | some fn => if fn == "_" then query.fieldsRest all rest
            else fn :: query.fieldsRest all rest
        | none => query.fieldsRest all rest := by
  cases f with
  | mk gn db dt dk dtn ty =>
    cases ty
    case strukt p inner => simp [isStructKind, GoField.typ] at h
    all_goals rfl

/-- No placeholder name `_` ever appears in the output of `fieldsRest`. -/
theorem underscore_not_mem_fieldsRest (all : Bool) (fs : GoFields) :
    "_" ∉ query.fieldsRest all fs := by
  induction fs using query.fieldsRest.induct all with
  | case1 => simp [query.fieldsRest]
  | case2 f rest h ih => simpa [fieldsRest_cons, h] using ih
  | case3 f rest h tag htag hueq ih => simpa [fieldsRest_cons, h, htag, hueq] using ih
  | case4 f rest h tag htag hne ih =>
    have hred : query.fieldsRest all (.cons f rest) =
        tag :: query.fieldsRest all rest := by
      simp [fieldsRest_cons, h, htag, hne]
    rw [hred]
    intro hmem
    rcases List.mem_cons.mp hmem with h1 | h1
    · exact hne (by simp [h1])
    · exact ih h1
  | case5 f rest h htag ih => simpa [fieldsRest_cons, h, htag] using ih

/-- Unfolding lemma for `fields` when the first field IS a struct kind. -/
theorem fields_cons_struct (all : Bool) (nm gn db dt dk dtn : String) (p : Bool)
    (inner : GoStruct) (rest : GoFields) :
    query.fields all (.mk nm (.cons (.mk gn db dt dk dtn (.strukt p inner)) rest)) =
      (let f : GoField := .mk gn db dt dk dtn (.strukt p inner)
       if !all && query.isAutoIncrement f then query.fieldsRest all rest
       else
         match query.getFieldName f with
         | some fn => if fn == "_" then query.fieldsRest all rest
             else query.fields all inner
         | none => query.fieldsRest all rest) := rfl

/-- Unfolding lemma for `fields` on an empty field list. -/
theorem fields_nil (all : Bool) (nm : String) :
    query.fields all (.mk nm .nil) = [] := rfl

/-- A field that cannot be a struct-typed field has a non-struct kind. -/
theorem not_struct_of_no_eq (f : GoField)
    (hfns : ∀ (gn db dt dk dtn : String) (p : Bool) (inner : GoStruct),
      f = GoField.mk gn db dt dk dtn (GoType.strukt p inner) → False) :
    ¬ isStructKind f.typ = true := by
  cases f with
  | mk gn db dt dk dtn ty =>
    cases ty
    case strukt p inner => exact fun _ => hfns gn db dt dk dtn p inner rfl
    all_goals simp [isStructKind, GoField.typ]

/-- No placeholder name `_` ever appears in the output of `fields`. -/
theorem underscore_not_mem_fields (all : Bool) (s : GoStruct) :
    "_" ∉ query.fields all s := by
  induction s using query.fields.induct all with
  | case1 nm => simp [fields_nil]
  | case2 name gn db dt dk dtn p inner rest f h =>
    rw [fields_cons_struct]
    simpa [h] using underscore_not_mem_fieldsRest all rest
  | case3 name gn db dt dk dtn p inner rest f h tag htag hueq =>
    rw [fields_cons_struct]
    simpa [h, htag, hueq] using underscore_not_mem_fieldsRest all rest
  | case4 name gn db dt dk dtn p inner rest f h tag htag hne ih =>
    rw [fields_cons_struct]
    simpa [h, htag, hne] using ih
  | case5 name gn db dt dk dtn p inner rest f h htag =>
    rw [fields_cons_struct]
    simpa [h, htag] using underscore_not_mem_fieldsRest all rest
  | case6 nm f rest hfns h =>
    rw [fields_cons_not_struct all nm f rest (not_struct_of_no_eq f hfns)]
    simpa [h] using underscore_not_mem_fieldsRest all rest
  | case7 nm f rest hfns h tag htag hueq =>
    rw [fields_cons_not_struct all nm f rest (not_struct_of_no_eq f hfns)]
    simpa [h, htag, hueq] using underscore_not_mem_fieldsRest all rest
  | case8 nm f rest hfns h tag htag hne =>
    rw [fields_cons_not_struct all nm f rest (not_struct_of_no_eq f hfns)]
    have hred : (if !all && query.isAutoIncrement f then query.fieldsRest all rest
        else
          match query.getFieldName f with
          | some fn => if fn == "_" then query.fieldsRest all rest
              else fn :: query.fieldsRest all rest
          | none => query.fieldsRest all rest) =
        tag :: query.fieldsRest all rest := by
      simp [h, htag, hne]
    rw [hred]
    intro hmem
    rcases List.mem_cons.mp hmem with h1 | h1
    · exact hne (by simp [h1])
    · exact underscore_not_mem_fieldsRest all rest h1
  | case9 nm f rest hfns h htag =>
    rw [fields_cons_not_struct all nm f rest (not_struct_of_no_eq f hfns)]
    simpa [h, htag] using underscore_not_mem_fieldsRest all rest

/-- Claim C7: for the repository's own MySQL test type — which carries a
field named `_` with key text `unique KEY(name(255))` as its last field —
`Table` emits that key text verbatim as a standalone clause after the
regular column list; the placeholder contributes no entry to the INSERT
(`fields false`) or SELECT (`fields true`) column lists (three names for
four struct fields) and no slot to either marshalled argument list; and
in general a placeholder name never appears in any emitted column list. -/
theorem C7_placeholder_field :
    query.Table TestMySQLTableT =
      .ok "CREATE TABLE IF NOT EXISTS testmysqltable (id integer not null primary key AUTO_INCREMENT, name text not null, data blob, unique KEY(name(255)));" ∧
    query.fields false TestMySQLTableT = ["id", "name", "data"] ∧
    query.fields true TestMySQLTableT = ["id", "name", "data"] ∧
    (query.Args TestMySQLTableT testMySQLVals true).length = 3 ∧
    (query.Args TestMySQLTableT testMySQLVals false).length = 3 ∧
    (∀ (all : Bool) (s : GoStruct),
      (query.fields all s).all (fun nm => nm != "_") = true) := by
  refine ⟨rfl, by decide, by decide, by decide, by decide, ?_⟩
  intro all s
  rw [List.all_eq_true]
  intro x hx
  have hne : x ≠ "_" := fun he => underscore_not_mem_fields all s (he ▸ hx)
  simpa using hne

/-- Unfolding lemma: `Name` of an empty struct is the lower-cased type
name. -/
theorem Name_nil (nm : String) : query.Name (.mk nm .nil) = goToLower nm := rfl

/-- Unfolding lemma: `Name` descends into a struct-typed (or pointer to
struct) FIRST field. -/
theorem Name_cons_struct (nm gn db dt dk dtn : String) (p : Bool)
    (inner : GoStruct) (rest : GoFields) :
    query.Name (.mk nm (.cons (.mk gn db dt dk dtn (.strukt p inner)) rest)) =
      query.Name inner := rfl

/-- Unfolding lemma: with a non-struct first field, `Name` is the first
`db_table_name` tag if any, else the lower-cased type name. -/
theorem Name_cons_not_struct (nm : String) (f : GoField) (rest : GoFields)
    (h : isStructKind f.typ = false) :
    query.Name (.mk nm (.cons f rest)) =
      match query.findTableTag (.cons f rest) with
      | some tag => tag
      | none => goToLower nm := by
  cases f with
  | mk gn db dt dk dtn ty =>
    cases ty
    case strukt p inner => simp [isStructKind, GoField.typ] at h
    all_goals rfl

/-- Claim C8: a struct type with a non-struct first field and no
`db_table_name` tag resolves to its lower-cased type name (`User` →
`"user"`); if the first non-empty `db_table_name` tag is `some_table`
the type resolves to `"some_table"`; and a type whose first field is an
embedded struct (or pointer to struct) resolves by descending into that
inner type. -/
theorem C8_table_name_resolution :
    (∀ (nm : String) (f : GoField) (rest : GoFields),
      isStructKind f.typ = false →
      query.findTableTag (.cons f rest) = none →
      query.Name (.mk nm (.cons f rest)) = goToLower nm) ∧
    (∀ (nm : String) (f : GoField) (rest : GoFields),
      isStructKind f.typ = false →
      query.findTableTag (.cons f rest) = some "some_table" →
      query.Name (.mk nm (.cons f rest)) = "some_table") ∧
    (∀ (nm gn db dt dk dtn : String) (p : Bool) (inner : GoStruct) (rest : GoFields),
      query.Name (.mk nm (.cons (.mk gn db dt dk dtn (.strukt p inner)) rest)) =
        query.Name inner) ∧
    query.Name UserT = "user" := by
  refine ⟨?_, ?_, ?_, by decide⟩
  · intro nm f rest h htag
    rw [Name_cons_not_struct nm f rest h, htag]
  · intro nm f rest h htag
    rw [Name_cons_not_struct nm f rest h, htag]
  · intro nm gn db dt dk dtn p inner rest
    exact Name_cons_struct nm gn db dt dk dtn p inner rest

/-- Witness for C8 at the repository's own test types: the untagged
`User` type, the `db_table_name:"some_table"` type, and the composite
with an embedded annotated first field. -/
theorem C8_table_name_witness :
    query.Name UserT = "user" ∧
    query.Name SomeTableTaggedT = "some_table" ∧
    query.Name OuterEmbT = query.Name InnerTaggedT ∧
    query.Name OuterEmbT = "some_table" := by
  refine ⟨C8_table_name_resolution.2.2.2, ?_, ?_, ?_⟩
  · exact C8_table_name_resolution.2.1 "SomeTable"
      (.mk "Name" "name" "" "" "some_table" .tString)
      (.cons (.mk "Cost" "cost" "" "" "" .tFloat64) .nil)
      (by decide) (by decide)
  · exact C8_table_name_resolution.2.2.1 "Outer" "Inner" "" "" "" ""
      false InnerTaggedT (.cons (.mk "Extra" "extra" "" "" "" .tString) .nil)
  · exact (C8_table_name_resolution.2.2.1 "Outer" "Inner" "" "" "" ""
      false InnerTaggedT (.cons (.mk "Extra" "extra" "" "" "" .tString) .nil)).trans
      (C8_table_name_resolution.2.1 "Inner"
        (.mk "Name" "name" "" "" "some_table" .tString) .nil
        (by decide) (by decide))

/-- With a non-struct first field, `fields` coincides with the plain
loop `fieldsRest` over the whole field list. -/
theorem fields_eq_fieldsRest_of_not_struct (all : Bool) (nm : String)
    (f : GoField) (rest : GoFields) (h : isStructKind f.typ = false) :
    query.fields all (.mk nm (.cons f rest)) = query.fieldsRest all (.cons f rest) := by
  rw [fields_cons_not_struct all nm f rest (by simp [h]), fieldsRest_cons]

/-- `fieldsRest` is the filter/map of the field list by the marshaller's
inclusion predicate (plus the autoincrement skip when `all` is false),
provided every field's name-side and marshaller-side exclusion markings
agree. -/
theorem fieldsRest_filter (all : Bool) (fs : GoFields)
    (hc : ∀ f ∈ fs.toList, inclName f = inclArgs f) :
    query.fieldsRest all fs =
      ((fs.toList.filter (fun f => inclArgs f && (all || !query.isAutoIncrement f))).map
        resolvedName) := by
  revert hc
  induction fs using query.fieldsRest.induct all with
  | case1 => intro _; rfl
  | case2 f rest h ih =>
    intro hc
    have hall : all = false := by
      rcases Bool.and_eq_true _ _ |>.mp h with ⟨h1, _⟩
      simpa using h1
    have hauto : query.isAutoIncrement f = true := by
      rcases Bool.and_eq_true _ _ |>.mp h with ⟨_, h2⟩
      exact h2
    rw [fieldsRest_cons, if_pos h]
    rw [ih (fun g hg => hc g (List.mem_cons_of_mem f hg))]
    simp [GoFields.toList, hall, hauto]
  | case3 f rest h tag htag hueq ih =>
    intro hc
    have hincl : inclArgs f = false := by
      rw [← hc f (List.mem_cons_self f _)]
      simp only [inclName, htag]
      simpa using hueq
    rw [fieldsRest_cons, if_neg h]
    simp only [htag]
    rw [if_pos hueq, ih (fun g hg => hc g (List.mem_cons_of_mem f hg))]
    simp [GoFields.toList, hincl]
  | case4 f rest h tag htag hne ih =>
    intro hc
    have hincl : inclArgs f = true := by
      rw [← hc f (List.mem_cons_self f _)]
      simp only [inclName, htag]
      simpa using hne
    have hcond : (all || !query.isAutoIncrement f) = true := by
      cases hall : all with
      | true => rfl
      | false =>
        have hna : query.isAutoIncrement f = false := by
          by_contra hx
          rw [Bool.not_eq_false] at hx
          exact h (by simp [hall, hx])
        simp [hna]
    rw [fieldsRest_cons, if_neg h]
    simp only [htag]
    rw [if_neg (by simpa using hne), ih (fun g hg => hc g (List.mem_cons_of_mem f hg))]
    have hres : resolvedName f = tag := by simp [resolvedName, htag]
    simp [GoFields.toList, hincl, hcond, hres]
  | case5 f rest h htag ih =>
    intro hc
    have hincl : inclArgs f = false := by
      rw [← hc f (List.mem_cons_self f _)]
      simp [inclName, htag]
    rw [fieldsRest_cons, if_neg h]
    simp only [htag]
    rw [ih (fun g hg => hc g (List.mem_cons_of_mem f hg))]
    simp [GoFields.toList, hincl]

/-- `argsGo` is the filter/map of the (field, value) list by the
marshaller's inclusion predicate (plus the autoincrement skip in the
write direction). -/
theorem argsGo_filter (fw : Bool) (l : List (GoField × GoValue)) :
    query.argsGo fw l =
      ((l.filter (fun p => inclArgs p.1 && (!fw || !query.isAutoIncrement p.1))).map
        (fun p => query.argValue p.1 p.2)) := by
  induction l with
  | nil => rfl
  | cons p rest ih =>
    obtain ⟨f, v⟩ := p
    by_cases hskip : query.skipArg f
    · simp [query.argsGo, hskip, inclArgs, ih]
    · have hskip' : query.skipArg f = false := by simpa using hskip
      cases fw with
      | false => simp [query.argsGo, hskip', inclArgs, ih]
      | true =>
        by_cases hauto : query.isAutoIncrement f
        · simp [query.argsGo, hskip', hauto, inclArgs, ih]
        · have hauto' : query.isAutoIncrement f = false := by simpa using hauto
          simp [query.argsGo, hskip', hauto', inclArgs, ih]

/-- Filtering a zip by a predicate on the first component keeps as many
elements as filtering the first list, when the lists have equal length. -/
theorem filter_zip_length (pred : GoField → Bool) :
    ∀ (fs : List GoField) (vs : List GoValue), vs.length = fs.length →
      ((fs.zip vs).filter (fun p => pred p.1)).length = (fs.filter pred).length := by
  intro fs
  induction fs with
  | nil => intro vs _; simp
  | cons f rest ih =>
    intro vs hlen
    cases vs with
    | nil => simp at hlen
    | cons v vrest =>
      have h' : vrest.length = rest.length := by simpa using hlen
      by_cases hp : pred f
      · simp [List.zip_cons_cons, List.filter_cons, hp, ih vrest h']
      · have hp' : pred f = false := by simpa using hp
        simp [List.zip_cons_cons, List.filter_cons, hp', ih vrest h']

/-- Claim C1 (amended): for every struct type whose FIRST field is not an
embedded struct and whose name-side and marshaller-side exclusion
markings agree on every field (the resolved column name is `_` exactly
when the Go field name is `_`, and `db:"-"` is the exclusion tag for
both), the column list emitted for the write direction (`fields false`,
used by `Insert`/`Update`) and `Args(·, forWrite=true)`, and the column
list for the read direction (`fields true`, used by `Select`) and
`Args(·, forWrite=false)`, are the filter/map of the SAME included field
subsequence in declaration order — in particular the j-th column name and
the j-th argument always come from the same field, and the lists have
equal lengths. -/
theorem C1_amended_ordering_invariant :
    ∀ (nm : String) (fsL : GoFields) (vs : List GoValue),
    headNotStruct fsL.toList = true →
    (∀ f ∈ fsL.toList, inclName f = inclArgs f) →
    vs.length = fsL.toList.length →
    (query.fields false (.mk nm fsL) =
      ((fsL.toList.filter (fun f => inclArgs f && !query.isAutoIncrement f)).map
        resolvedName) ∧
    query.Args (.mk nm fsL) vs true =
      ((fsL.toList.zip vs).filter
          (fun p => inclArgs p.1 && !query.isAutoIncrement p.1)).map
        (fun p => query.argValue p.1 p.2) ∧
    query.fields true (.mk nm fsL) =
      ((fsL.toList.filter (fun f => inclArgs f)).map resolvedName) ∧
    query.Args (.mk nm fsL) vs false =
      ((fsL.toList.zip vs).filter (fun p => inclArgs p.1)).map
        (fun p => query.argValue p.1 p.2) ∧
    (query.fields false (.mk nm fsL)).length =
      (query.Args (.mk nm fsL) vs true).length ∧
    (query.fields true (.mk nm fsL)).length =
      (query.Args (.mk nm fsL) vs false).length) := by
  intro nm fsL vs hh hc hlen
  have hfields : ∀ all, query.fields all (.mk nm fsL) =
      ((fsL.toList.filter (fun f => inclArgs f && (all || !query.isAutoIncrement f))).map
        resolvedName) := by
    intro all
    cases fsL with
    | nil => rfl
    | cons f rest =>
      have hns : isStructKind f.typ = false := by
        simpa [headNotStruct, GoFields.toList] using hh
      rw [fields_eq_fieldsRest_of_not_struct all nm f rest hns]
      exact fieldsRest_filter all (.cons f rest) hc
  have hargs : ∀ fw, query.Args (.mk nm fsL) vs fw =
      ((fsL.toList.zip vs).filter
          (fun p => inclArgs p.1 && (!fw || !query.isAutoIncrement p.1))).map
        (fun p => query.argValue p.1 p.2) := by
    intro fw
    exact argsGo_filter fw _
  refine ⟨by simpa using hfields false, by simpa using hargs true,
    by simpa using hfields true, by simpa using hargs false, ?_, ?_⟩
  · rw [hfields false, hargs true, List.length_map, List.length_map]
    simpa using (filter_zip_length _ fsL.toList vs hlen).symm
  · rw [hfields true, hargs false, List.length_map, List.length_map]
    simpa using (filter_zip_length _ fsL.toList vs hlen).symm

/-- Witness for C1 (amended) at the repository's `SomeTable` test type:
the hypotheses hold and column list and write arguments align. -/
theorem C1_amended_witness :
    query.fields false SomeTableT = ["name", "cost", "age", "time"] ∧
    query.Args SomeTableT someTableVals true =
      [.vString "John", .vF64 100, .vInt .i32 20, .vTime 5] ∧
    (query.fields false SomeTableT).length =
      (query.Args SomeTableT someTableVals true).length := by
  have h := C1_amended_ordering_invariant "SomeTable" SomeTableT.fieldsL
    someTableVals (by decide) (by decide) (by decide)
  exact ⟨h.1.trans (by decide), h.2.1.trans (by decide), h.2.2.2.2.1⟩

theorem argValue_boxValue (f : GoField) (v : GoValue) :
    query.argValue f v = boxValue f.typ v := rfl

/-- The gob blob of a complex value decodes back to its components. -/
theorem gob_round (re im : Int) :
    query.gobDecodeComplex (query.gobEncodeComplex re im) = (re, im) := by
  have h1 : ∀ z : Int,
      (if (if z < 0 then (1 : Nat) else 0) == 1 then -(z.natAbs : Int)
        else (z.natAbs : Int)) = z := by
    intro z
    by_cases hz : z < 0
    · rw [if_pos hz, if_pos (by decide)]
      omega
    · rw [if_neg hz, if_neg (by decide)]
      omega
  unfold query.gobEncodeComplex query.gobEncInt query.gobDecodeComplex
  simp only [List.cons_append, List.nil_append]
  show (_, _) = (re, im)
  rw [Prod.mk.injEq]
  exact ⟨h1 re, h1 im⟩

/-- Round trip of one field assignment: a supported-scalar field's boxed
argument, scanned back by `ArgsAppay`'s type switch, restores exactly the
original field value. -/
theorem setField_box_round (k : GoType) (old v : GoValue)
    (hs : supportedScalar k = true) (hv : validVal k v = true) :
    query.setField k old (boxValue k v) = .okv v := by
  cases k with
  | tInt kk =>
    cases v
    case vInt k' x =>
      simp only [validVal, Bool.and_eq_true, beq_iff_eq] at hv
      obtain ⟨hk, hr⟩ := hv
      subst hk
      simp only [boxValue, query.isComplexKind, if_false, query.setField]
      cases kk <;>
        simp_all [query.setInt, IntKind.signed, IntKind.width, query.wrapS, query.wrapU] <;>
        omega
    all_goals simp_all [validVal]
  | tString =>
    cases v
    all_goals simp_all [boxValue, query.isComplexKind, validVal, query.setField]
  | tBool =>
    cases v
    all_goals simp_all [boxValue, query.isComplexKind, validVal, query.setField]
  | tFloat32 =>
    cases v
    all_goals simp_all [boxValue, query.isComplexKind, validVal, query.setField]
  | tFloat64 =>
    cases v
    all_goals simp_all [boxValue, query.isComplexKind, validVal, query.setField]
  | tBytes =>
    cases v
    all_goals simp_all [boxValue, query.isComplexKind, validVal, query.setField]
  | tTime =>
    cases v
    all_goals simp_all [boxValue, query.isComplexKind, validVal, query.setField]
  | tComplex64 =>
    cases v
    all_goals simp_all [boxValue, query.isComplexKind, validVal, query.setField,
      gob_round]
  | tComplex128 =>
    cases v
    all_goals simp_all [boxValue, query.isComplexKind, validVal, query.setField,
      gob_round]
  | strukt p inner => exact absurd hs (by simp [supportedScalar])
  | tOtherSlice nm => exact absurd hs (by simp [supportedScalar])
  | tOther nm => exact absurd hs (by simp [supportedScalar])

/-- Core of claim C2, generalized over a prefix of already-consumed
argument slots: with every field included and of supported scalar type,
applying the read-direction argument list restores the original record
values and reports no error. -/
theorem argsAppay_round (fs : List GoField) :
    ∀ (vs r2 pre : List GoValue),
    allIncludedScalar fs = true →
    validRecord fs vs = true →
    r2.length = fs.length →
    query.argsAppayGo (pre ++ query.argsGo false (fs.zip vs)) pre.length (fs.zip r2) =
      (vs, none) := by
  induction fs with
  | nil =>
    intro vs r2 pre _ hvr _
    have hnil : vs = [] := by
      rcases Bool.and_eq_true _ _ |>.mp hvr with ⟨h1, _⟩
      cases vs with
      | nil => rfl
      | cons a b => simp at h1
    subst hnil
    rfl
  | cons f rest ih =>
    intro vs r2 pre hinc hvr hr2
    rw [validRecord, Bool.and_eq_true] at hvr
    obtain ⟨hlen, hall⟩ := hvr
    cases vs with
    | nil => simp at hlen
    | cons v vrest =>
      cases r2 with
      | nil => simp at hr2
      | cons w wrest =>
        rw [allIncludedScalar, List.all_cons, Bool.and_eq_true] at hinc
        obtain ⟨hincf, hincrest⟩ := hinc
        rw [Bool.and_eq_true] at hincf
        obtain ⟨hskip, hsupp⟩ := hincf
        have hskip' : query.skipArg f = false := by simpa using hskip
        rw [List.zip_cons_cons, List.all_cons, Bool.and_eq_true] at hall
        obtain ⟨hvalf, hallrest⟩ := hall
        have hinc' : allIncludedScalar rest = true := hincrest
        have hvr' : validRecord rest vrest = true := by
          rw [validRecord, Bool.and_eq_true]
          exact ⟨by simpa using hlen, hallrest⟩
        have hr2' : wrest.length = rest.length := by simpa using hr2
        have hargs : query.argsGo false ((f :: rest).zip (v :: vrest)) =
            query.argValue f v :: query.argsGo false (rest.zip vrest) := by
          rw [List.zip_cons_cons]
          simp [query.argsGo, hskip']
        rw [hargs]
        have hget : (pre ++ query.argValue f v ::
            query.argsGo false (rest.zip vrest))[pre.length]? =
            some (query.argValue f v) := by
          rw [List.getElem?_append_right (Nat.le_refl _)]
          simp
        have hset : query.setField f.typ w (query.argValue f v) = .okv v := by
          rw [argValue_boxValue]
          exact setField_box_round f.typ w v hsupp (by simpa using hvalf)
        have hrec := ih vrest wrest (pre ++ [query.argValue f v]) hinc' hvr' hr2'
        rw [List.append_assoc] at hrec
        simp only [List.singleton_append, List.length_append,
          List.length_singleton] at hrec
        rw [List.zip_cons_cons]
        simp only [query.argsAppayGo, hskip', Bool.false_eq_true, if_false, hget,
          hset, hrec]

/-- Claim C2: for any record whose fields are all marshaller-included and
of supported scalar type (string, boolean, 32/64-bit float, every signed
and unsigned integer width, byte sequence, timestamp, complex — the
complex components travelling through the gob byte encoding), building
the read-direction argument list with `Args(r, forWrite=false)` and
applying it onto any same-shape record with `ArgsAppay` reproduces `r`
field for field, with a nil error. -/
theorem C2_round_trip :
    ∀ (nm : String) (fsL : GoFields) (vs r2 : List GoValue),
    allIncludedScalar fsL.toList = true →
    validRecord fsL.toList vs = true →
    r2.length = fsL.toList.length →
    query.ArgsAppay (.mk nm fsL) r2 (query.Args (.mk nm fsL) vs false) =
      (vs, none) := by
  intro nm fsL vs r2 h1 h2 h3
  have h := argsAppay_round fsL.toList vs r2 [] h1 h2 h3
  simpa [query.ArgsAppay, query.Args, GoStruct.fieldList, GoStruct.fieldsL]
    using h

/-- Witness for C2: the round trip at a concrete record covering every
supported scalar kind. -/
theorem C2_round_trip_witness :
    query.ArgsAppay AllKindsT (List.replicate 18 GoValue.vOpaque)
      (query.Args AllKindsT allKindsVals false) = (allKindsVals, none) :=
  C2_round_trip "AllKinds" AllKindsT.fieldsL allKindsVals
    (List.replicate 18 GoValue.vOpaque) (by decide) (by decide) (by decide)

/-- When every remaining field is skipped, `ArgsAppay`'s loop leaves all
values unchanged and reports no error, regardless of the argument list
and index. -/
theorem argsAppayGo_all_skip (args : List GoValue) :
    ∀ (l : List (GoField × GoValue)) (i : Nat),
    (∀ p ∈ l, query.skipArg p.1 = true) →
    query.argsAppayGo args i l = (query.keepVals l, none) := by
  intro l
  induction l with
  | nil => intro i _; rfl
  | cons p rest ih =>
    intro i h
    obtain ⟨f, old⟩ := p
    have hf : query.skipArg f = true := h (f, old) (List.mem_cons_self _ _)
    have hrest := ih (i + 1) (fun q hq => h q (List.mem_cons_of_mem _ hq))
    simp [query.argsAppayGo, hf, hrest, query.keepVals]

/-- The compact reference semantics also leaves an all-skipped suffix
unchanged. -/
theorem applyCompact_all_skip (args : List GoValue) :
    ∀ (l : List (GoField × GoValue)),
    (∀ p ∈ l, query.skipArg p.1 = true) →
    applyCompact args l = (query.keepVals l, none) := by
  intro l
  induction l generalizing args with
  | nil => intro _; rfl
  | cons p rest ih =>
    intro h
    obtain ⟨f, old⟩ := p
    have hf : query.skipArg f = true := h (f, old) (List.mem_cons_self _ _)
    have hrest := ih args (fun q hq => h q (List.mem_cons_of_mem _ hq))
    simp [applyCompact, hf, hrest, query.keepVals]

theorem alignedDecl_cons_skip (f : GoField) (fs : List GoField)
    (h : query.skipArg f = true) :
    alignedDecl (f :: fs) = (f :: fs).all query.skipArg := by
  simp [alignedDecl, List.dropWhile_cons, h]

theorem alignedDecl_cons_incl (f : GoField) (fs : List GoField)
    (h : query.skipArg f = false) :
    alignedDecl (f :: fs) = alignedDecl fs := by
  simp [alignedDecl, List.dropWhile_cons, h]

/-- On a declaration-aligned field list (no skipped field before an
included one), `ArgsAppay`'s raw-index loop coincides with the compact
reference semantics that applies the j-th argument to the j-th included
field — in particular every argument access is in range whenever the
argument list is long enough. -/
theorem argsAppayGo_eq_applyCompact :
    ∀ (l : List (GoField × GoValue)) (args : List GoValue) (i : Nat),
    alignedDecl (l.map Prod.fst) = true →
    query.argsAppayGo args i l = applyCompact (args.drop i) l := by
  intro l
  induction l with
  | nil => intro args i _; rfl
  | cons p rest ih =>
    intro args i halign
    obtain ⟨f, old⟩ := p
    by_cases hf : query.skipArg f = true
    · have hall : ((f :: rest.map Prod.fst).all query.skipArg) = true := by
        rw [← alignedDecl_cons_skip f _ hf]
        simpa using halign
      have hrest : ∀ q ∈ rest, query.skipArg q.1 = true := by
        intro q hq
        rw [List.all_cons, Bool.and_eq_true] at hall
        exact (List.all_eq_true.mp hall.2) q.1 (List.mem_map_of_mem Prod.fst hq)
      rw [argsAppayGo_all_skip args _ i (by
        intro q hq
        rcases List.mem_cons.mp hq with h1 | h1
        · rw [h1]; exact hf
        · exact hrest q h1)]
      rw [applyCompact_all_skip (args.drop i) _ (by
        intro q hq
        rcases List.mem_cons.mp hq with h1 | h1
        · rw [h1]; exact hf
        · exact hrest q h1)]
    · have hf' : query.skipArg f = false := by simpa using hf
      have halign' : alignedDecl (rest.map Prod.fst) = true := by
        rw [List.map_cons, alignedDecl_cons_incl f _ hf'] at halign
        exact halign
      cases harg : args[i]? with
      | none =>
        have hd : args.drop i = [] := by
          rw [List.drop_eq_nil_iff]
          exact List.getElem?_eq_none_iff.mp harg
        simp [query.argsAppayGo, applyCompact, hf', harg, hd]
      | some a =>
        have hlt : i < args.length := by
          by_contra hge
          rw [List.getElem?_eq_none_iff.mpr (by omega)] at harg
          exact Option.noConfusion harg
        have hd : args.drop i = a :: args.drop (i + 1) := by
          rw [List.drop_eq_getElem_cons hlt]
          have : args[i] = a := by
            have := List.getElem?_eq_getElem hlt
            rw [harg] at this
            exact (Option.some.injEq _ _ ▸ this.symm)
          rw [this]
        rw [hd]
        cases hset : query.setField f.typ old a with
        | okv nv =>
          simp [query.argsAppayGo, applyCompact, hf', harg, hset,
            ih args (i + 1) halign']
        | errReturn m => simp [query.argsAppayGo, applyCompact, hf', harg, hset]
        | panicked m => simp [query.argsAppayGo, applyCompact, hf', harg, hset]

/-- If an included field sits at a raw position at or past the end of the
argument list, `ArgsAppay`'s loop always surfaces an error (either the
recovered out-of-range panic at that field or an earlier failure). -/
theorem argsAppayGo_err_structural (args : List GoValue) :
    ∀ (l1 : List (GoField × GoValue)) (g : GoField × GoValue)
      (l2 : List (GoField × GoValue)) (i : Nat),
    query.skipArg g.1 = false →
    args.length ≤ i + l1.length →
    ((query.argsAppayGo args i (l1 ++ g :: l2)).2).isSome = true := by
  intro l1
  induction l1 with
  | nil =>
    intro g l2 i hg hlen
    obtain ⟨f, old⟩ := g
    have harg : args[i]? = none := List.getElem?_eq_none_iff.mpr (by simpa using hlen)
    simp [query.argsAppayGo, hg, harg]
  | cons p rest ih =>
    intro g l2 i hg hlen
    obtain ⟨f, old⟩ := p
    have hlen' : args.length ≤ (i + 1) + rest.length := by
      simp at hlen
      omega
    by_cases hf : query.skipArg f = true
    · have := ih g l2 (i + 1) hg hlen'
      simp [query.argsAppayGo, hf, this]
    · have hf' : query.skipArg f = false := by simpa using hf
      cases harg : args[i]? with
      | none => simp [query.argsAppayGo, hf', harg]
      | some a =>
        cases hset : query.setField f.typ old a with
        | okv nv =>
          have := ih g l2 (i + 1) hg hlen'
          simp [query.argsAppayGo, hf', harg, hset, this]
        | errReturn m => simp [query.argsAppayGo, hf', harg, hset]
        | panicked m => simp [query.argsAppayGo, hf', harg, hset]

/-- Any list with an included element splits around its LAST included
element: everything after it is skipped. -/
theorem exists_last_incl :
    ∀ (fs : List GoField), (∃ g ∈ fs, query.skipArg g = false) →
    ∃ w1 g w2, fs = w1 ++ g :: w2 ∧ query.skipArg g = false ∧
      w2.all query.skipArg = true := by
  intro fs
  induction fs with
  | nil =>
    intro h
    rcases h with ⟨g, hg, _⟩
    exact absurd hg (List.not_mem_nil g)
  | cons f rest ih =>
    intro h
    by_cases hrest : ∃ g ∈ rest, query.skipArg g = false
    · rcases ih hrest with ⟨w1, g, w2, heq, hg, hall⟩
      exact ⟨f :: w1, g, w2, by simp [heq], hg, hall⟩
    · rcases h with ⟨g, hg, hgs⟩
      rcases List.mem_cons.mp hg with h1 | h1
      · refine ⟨[], f, rest, rfl, h1 ▸ hgs, ?_⟩
        rw [List.all_eq_true]
        intro x hx
        by_contra hxs
        exact hrest ⟨x, hx, by simpa using hxs⟩
      · exact absurd ⟨g, h1, hgs⟩ hrest

/-- A list of the shape incl* ++ incl :: skip* is declaration-aligned. -/
theorem alignedDecl_of_split (w1 : List GoField) (g : GoField) (w2 : List GoField)
    (h1 : w1.all (fun f => !query.skipArg f) = true)
    (hg : query.skipArg g = false)
    (h2 : w2.all query.skipArg = true) :
    alignedDecl (w1 ++ g :: w2) = true := by
  induction w1 with
  | nil =>
    rw [List.nil_append, alignedDecl_cons_incl g w2 hg, alignedDecl]
    rw [List.all_eq_true]
    intro x hx
    exact List.all_eq_true.mp h2 x ((List.dropWhile_suffix _).sublist.subset hx)
  | cons f w1' ih =>
    rw [List.all_cons, Bool.and_eq_true] at h1
    rw [List.cons_append, alignedDecl_cons_incl f _ (by simpa using h1.1)]
    exact ih h1.2

/-- The write/read argument list length equals the number of included
fields (for the read direction). -/
theorem args_read_length (nm : String) (fsL : GoFields) (vs : List GoValue)
    (hlen : vs.length = fsL.toList.length) :
    (query.Args (.mk nm fsL) vs false).length = countIncl fsL.toList := by
  show (query.argsGo false (fsL.toList.zip vs)).length = _
  rw [argsGo_filter, List.length_map,
    filter_zip_length (fun f => inclArgs f && (!false || !query.isAutoIncrement f))
      fsL.toList vs hlen]
  rw [countIncl, List.countP_eq_length_filter]
  congr 1
  apply List.filter_congr
  intro x _
  simp

/-- Core of claim C9's misalignment half: when some skipped field
precedes an included one, applying the argument list `Args` produced
always surfaces a (recovered) error. -/
theorem misaligned_err (nm : String) (fsL : GoFields) (vs r2 : List GoValue)
    (halign : alignedDecl fsL.toList = false)
    (hlenv : vs.length = fsL.toList.length)
    (hlenr : r2.length = fsL.toList.length) :
    ((query.ArgsAppay (.mk nm fsL) r2 (query.Args (.mk nm fsL) vs false)).2).isSome
      = true := by
  have hex : ∃ g ∈ fsL.toList, query.skipArg g = false := by
    by_contra hne
    push_neg at hne
    have hall : alignedDecl fsL.toList = true := by
      rw [alignedDecl, List.all_eq_true]
      intro x hx
      have hxm : x ∈ fsL.toList := (List.dropWhile_suffix _).sublist.subset hx
      have := hne x hxm
      simpa using this
    rw [hall] at halign
    exact Bool.noConfusion halign
  rcases exists_last_incl fsL.toList hex with ⟨w1, g, w2, heq, hg, hw2⟩
  have hw1 : ¬ (w1.all (fun f => !query.skipArg f) = true) := by
    intro hall
    have h := alignedDecl_of_split w1 g w2 hall hg hw2
    rw [← heq] at h
    rw [h] at halign
    exact Bool.noConfusion halign
  have hcount : countIncl fsL.toList ≤ w1.length := by
    have hgi : inclArgs g = true := by simp [inclArgs, hg]
    have hw2c : List.countP (fun f => inclArgs f) w2 = 0 := by
      rw [List.countP_eq_zero]
      intro x hx
      have hxs := List.all_eq_true.mp hw2 x hx
      simp [inclArgs, hxs]
    have hw1c : List.countP (fun f => inclArgs f) w1 < w1.length := by
      rcases Nat.lt_or_ge (List.countP (fun f => inclArgs f) w1) w1.length with h | h
      · exact h
      · exfalso
        have hle := List.countP_le_length (fun f => inclArgs f) (l := w1)
        have heqc : List.countP (fun f => inclArgs f) w1 = w1.length := by omega
        apply hw1
        rw [List.all_eq_true]
        intro x hx
        have := List.countP_eq_length.mp heqc x hx
        simpa [inclArgs] using this
    rw [heq, countIncl, List.countP_append, List.countP_cons, hw2c, hgi]
    simp
    omega
  have hlenfs : fsL.toList.length = w1.length + 1 + w2.length := by
    rw [heq]
    simp
    omega
  have htake : (r2.take w1.length).length = w1.length := by
    rw [List.length_take]
    omega
  obtain ⟨y, ys, hdrop⟩ : ∃ y ys, r2.drop w1.length = y :: ys := by
    cases hd : r2.drop w1.length with
    | nil =>
      exfalso
      have := List.drop_eq_nil_iff.mp hd
      omega
    | cons y ys => exact ⟨y, ys, rfl⟩
  have hzip : fsL.toList.zip r2 =
      (w1.zip (r2.take w1.length)) ++ ((g, y) :: w2.zip ys) := by
    conv_lhs => rw [heq, show r2 = r2.take w1.length ++ r2.drop w1.length from
      (List.take_append_drop _ _).symm]
    rw [List.zip_append (by rw [htake]), hdrop]
    rfl
  have hargslen := args_read_length nm fsL vs hlenv
  show ((query.argsAppayGo (query.Args (.mk nm fsL) vs false) 0
      (fsL.toList.zip r2)).2).isSome = true
  rw [hzip]
  apply argsAppayGo_err_structural _ _ (g, y) _ 0 hg
  rw [hargslen]
  have hzlen : (w1.zip (r2.take w1.length)).length = w1.length := by
    rw [List.length_zip, htake]
    omega
  omega

/-- Claim C9: `ArgsAppay` reads each included field's argument at the
field's RAW declaration index.  Hence (a) for every record type in which
no skipped field (`db:"-"` or name `_`) is declared before an included
field, the loop coincides with the compact reference semantics that
applies argument j to the j-th included field, with every access in
range; and (b) for any type where a skipped field precedes an included
one (in particular a `"-"`-tagged field), applying the argument list that
`Args` produced always surfaces a non-nil error — the recovered panic of
the out-of-range lookup or of an earlier misapplied argument — never a
crash. -/
theorem C9_argument_index_alignment :
    (∀ (nm : String) (fsL : GoFields) (r2 args : List GoValue),
      alignedDecl fsL.toList = true →
      r2.length = fsL.toList.length →
      query.ArgsAppay (.mk nm fsL) r2 args =
        applyCompact args (fsL.toList.zip r2)) ∧
    (∀ (nm : String) (fsL : GoFields) (vs r2 : List GoValue),
      alignedDecl fsL.toList = false →
      vs.length = fsL.toList.length →
      r2.length = fsL.toList.length →
      ((query.ArgsAppay (.mk nm fsL) r2
          (query.Args (.mk nm fsL) vs false)).2).isSome = true) := by
  constructor
  · intro nm fsL r2 args halign hlen
    have hmap : (fsL.toList.zip r2).map Prod.fst = fsL.toList :=
      List.map_fst_zip _ _ (by omega)
    have h := argsAppayGo_eq_applyCompact (fsL.toList.zip r2) args 0
      (by rw [hmap]; exact halign)
    simpa [query.ArgsAppay, GoStruct.fieldList, GoStruct.fieldsL] using h
  · intro nm fsL vs r2 halign hlenv hlenr
    exact misaligned_err nm fsL vs r2 halign hlenv hlenr

/-- Witness for C9: the aligned repository test type `SomeTable` runs
through the compact semantics, while the `db:"-"`-first type errors. -/
theorem C9_argument_index_witness :
    query.ArgsAppay SomeTableT someTableVals
      (query.Args SomeTableT someTableVals false) =
      applyCompact (query.Args SomeTableT someTableVals false)
        (SomeTableT.fieldList.zip someTableVals) ∧
    ((query.ArgsAppay DashFirstT dashVals
        (query.Args DashFirstT dashVals false)).2).isSome = true := by
  constructor
  · exact C9_argument_index_alignment.1 "SomeTable" SomeTableT.fieldsL
      someTableVals (query.Args SomeTableT someTableVals false)
      (by decide) (by decide)
  · exact C9_argument_index_alignment.2 "DashFirst" DashFirstT.fieldsL
      dashVals dashVals (by decide) (by decide) (by decide)

theorem strToList_append (s t : String) :
    (s ++ t).toList = s.toList ++ t.toList := rfl

/-- A prefix of `a` is a prefix of `a ++ b`. -/
theorem listHasPre_append_of (p a b : List Char)
    (h : listHasPre p a = true) : listHasPre p (a ++ b) = true := by
  induction p generalizing a with
  | nil => rfl
  | cons q p' ih =>
    cases a with
    | nil => exact absurd h (by simp [listHasPre])
    | cons c a' =>
      rw [listHasPre, Bool.and_eq_true] at h
      rw [List.cons_append, listHasPre, Bool.and_eq_true]
      exact ⟨h.1, ih a' h.2⟩

/-- A prefix is never longer than the list. -/
theorem listHasPre_length (p l : List Char) (h : listHasPre p l = true) :
    p.length ≤ l.length := by
  induction p generalizing l with
  | nil => simp
  | cons q p' ih =>
    cases l with
    | nil => exact absurd h (by simp [listHasPre])
    | cons c l' =>
      rw [listHasPre, Bool.and_eq_true] at h
      simpa using ih l' h.2

/-- A prefix of `a ++ b` no longer than `a` is a prefix of `a`. -/
theorem listHasPre_of_append (p a b : List Char)
    (h : listHasPre p (a ++ b) = true) (hl : p.length ≤ a.length) :
    listHasPre p a = true := by
  induction p generalizing a with
  | nil => rfl
  | cons q p' ih =>
    cases a with
    | nil => simp at hl
    | cons c a' =>
      rw [List.cons_append, listHasPre, Bool.and_eq_true] at h
      rw [listHasPre, Bool.and_eq_true]
      exact ⟨h.1, ih a' h.2 (by simpa using hl)⟩

/-- If `p` runs past `a` inside `a ++ b`, then `a` is a prefix of `p`. -/
theorem listHasPre_overrun (p a b : List Char)
    (h : listHasPre p (a ++ b) = true) (hl : a.length < p.length) :
    listHasPre a p = true := by
  induction a generalizing p with
  | nil => rfl
  | cons c a' ih =>
    cases p with
    | nil => simp at hl
    | cons q p' =>
      rw [List.cons_append, listHasPre, Bool.and_eq_true] at h
      rw [listHasPre, Bool.and_eq_true]
      refine ⟨?_, ih p' h.2 (by simpa using hl)⟩
      have : q = c := by simpa using h.1
      simp [this]

/-- Every character of a prefix belongs to the list. -/
theorem mem_of_listHasPre (a p : List Char) (h : listHasPre a p = true) :
    ∀ c ∈ a, c ∈ p := by
  induction a generalizing p with
  | nil => intro c hc; simp at hc
  | cons x a' ih =>
    intro c hc
    cases p with
    | nil => exact absurd h (by simp [listHasPre])
    | cons q p' =>
      rw [listHasPre, Bool.and_eq_true] at h
      rcases List.mem_cons.mp hc with h1 | h1
      · have : x = q := by have := h.1; simp at this; simp [this, h1]
        rw [h1, this]
        exact List.mem_cons_self q p'
      · exact List.mem_cons_of_mem q (ih p' h.2 c h1)

/-- A pattern that does not contain the head character of a list is not a
prefix of it. -/
theorem listHasPre_false_of_head (p : List Char) (ch : Char) (x : List Char)
    (hp : p ≠ []) (hch : ch ∉ p) : listHasPre p (ch :: x) = false := by
  cases p with
  | nil => exact absurd rfl hp
  | cons q p' =>
    have hq : (q == ch) = false := by
      by_contra hx
      rw [Bool.not_eq_false] at hx
      have : q = ch := by simpa using hx
      exact hch (this ▸ List.mem_cons_self q p')
    simp [listHasPre, hq]

/-- If the pattern overruns `d` inside `d ++ b`, the head of `b` occurs
in the pattern. -/
theorem head_mem_of_overrun (p d b : List Char) (ch : Char)
    (h : listHasPre p (d ++ b) = true) (hl : d.length < p.length)
    (hb : b.head? = some ch) : ch ∈ p := by
  induction d generalizing p with
  | nil =>
    cases p with
    | nil => simp at hl
    | cons q p' =>
      cases b with
      | nil => simp at hb
      | cons c b' =>
        rw [List.nil_append, listHasPre, Bool.and_eq_true] at h
        have hq : q = c := by simpa using h.1
        have hc : c = ch := by simpa using hb
        rw [hq, hc]
        exact List.mem_cons_self ch p'
  | cons c d' ih =>
    cases p with
    | nil => simp at hl
    | cons q p' =>
      rw [List.cons_append, listHasPre, Bool.and_eq_true] at h
      exact List.mem_cons_of_mem q (ih p' h.2 (by simpa using hl) )

/-- Occurrence counting splits over an append whose LEFT part ends in a
character that the pattern does not contain. -/
theorem occCount_append_last (p : List Char) (ch : Char) (hp : p ≠ [])
    (hch : ch ∉ p) :
    ∀ (a b : List Char), a.getLast? = some ch →
    occCount p (a ++ b) = occCount p a + occCount p b := by
  intro a
  induction a with
  | nil => intro b hlast; simp at hlast
  | cons c a' ih =>
    intro b hlast
    have hhead : listHasPre p ((c :: a') ++ b) = listHasPre p (c :: a') := by
      cases hpre : listHasPre p (c :: a') with
      | true => exact listHasPre_append_of p _ b hpre
      | false =>
        cases hpre2 : listHasPre p ((c :: a') ++ b) with
        | false => rfl
        | true =>
          exfalso
          rcases le_or_lt p.length (c :: a').length with hle | hgt
          · rw [listHasPre_of_append p _ b hpre2 hle] at hpre
            exact Bool.noConfusion hpre
          · have hmem : ch ∈ (c :: a') := by
              have hover := listHasPre_overrun p _ b hpre2 hgt
              have hinl : ch ∈ (c :: a').getLast? := by
                rw [hlast]
                rfl
              rcases List.mem_getLast?_eq_getLast hinl with ⟨hne, hlg⟩
              rw [hlg]
              exact List.getLast_mem hne
            exact hch (mem_of_listHasPre _ p
              (listHasPre_overrun p _ b hpre2 hgt) ch hmem)
    cases a' with
    | nil =>
      have hc : c = ch := by simpa using hlast
      rw [← hc] at hch
      rw [List.singleton_append, occCount,
        show listHasPre p (c :: b) = false from
          listHasPre_false_of_head p c b hp hch,
        show occCount p [c] = 0 from by
          rw [occCount, show listHasPre p [c] = false from
            listHasPre_false_of_head p c [] hp hch]
          simp [occCount]]
      simp
    | cons d a'' =>
      have hlast' : (d :: a'').getLast? = some ch := by
        rw [← List.getLast?_cons_cons]
        exact hlast
      have hrec := ih b hlast'
      rw [List.cons_append, occCount, hrec]
      conv_rhs => rw [occCount]
      rw [← List.cons_append, hhead]
      omega

/-- Occurrence counting splits over an append whose RIGHT part begins
with a character that the pattern does not contain. -/
theorem occCount_append_head (p : List Char) (ch : Char) (hp : p ≠ [])
    (hch : ch ∉ p) :
    ∀ (a b : List Char), b.head? = some ch →
    occCount p (a ++ b) = occCount p a + occCount p b := by
  intro a
  induction a with
  | nil => intro b _; simp [occCount]
  | cons c a' ih =>
    intro b hhead
    have hheads : listHasPre p ((c :: a') ++ b) = listHasPre p (c :: a') := by
      cases hpre : listHasPre p (c :: a') with
      | true => exact listHasPre_append_of p _ b hpre
      | false =>
        cases hpre2 : listHasPre p ((c :: a') ++ b) with
        | false => rfl
        | true =>
          exfalso
          rcases le_or_lt p.length (c :: a').length with hle | hgt
          · rw [listHasPre_of_append p _ b hpre2 hle] at hpre
            exact Bool.noConfusion hpre
          · exact hch (head_mem_of_overrun p _ b ch hpre2 hgt hhead)
    have hrec := ih b hhead
    rw [List.cons_append, occCount, hrec]
    conv_rhs => rw [occCount]
    rw [← List.cons_append, hheads]
    omega

theorem head?_append_left (l l' : List Char) (ch : Char)
    (h : l.head? = some ch) : (l ++ l').head? = some ch := by
  cases l with
  | nil => simp at h
  | cons c t => simpa using h

/-- A separator-joined list of pattern-free strings is pattern-free,
when the separator starts and ends with characters outside the pattern
and is itself pattern-free. -/
theorem occ_strJoin_zero (p : List Char) (sep : String) (ch1 ch2 : Char)
    (hp : p ≠ [])
    (hh : sep.toList.head? = some ch1) (hch1 : ch1 ∉ p)
    (hl : sep.toList.getLast? = some ch2) (hch2 : ch2 ∉ p)
    (hsep : occCount p sep.toList = 0) :
    ∀ (l : List String), (∀ x ∈ l, occCount p x.toList = 0) →
    occCount p (strJoin l sep).toList = 0 := by
  intro l
  induction l with
  | nil => intro _; rfl
  | cons x rest ih =>
    intro hall
    cases rest with
    | nil => exact hall x (List.mem_cons_self _ _)
    | cons y rest' =>
      have hx := hall x (List.mem_cons_self _ _)
      have hrest := ih (fun z hz => hall z (List.mem_cons_of_mem _ hz))
      rw [show strJoin (x :: y :: rest') sep =
          x ++ (sep ++ strJoin (y :: rest') sep) from by
        rw [← String.append_assoc]
        rfl]
      rw [strToList_append,
        occCount_append_head p ch1 hp hch1 x.toList _ (by
          rw [strToList_append]
          exact head?_append_left _ _ ch1 hh),
        hx, strToList_append,
        occCount_append_last p ch2 hp hch2 sep.toList _ hl, hsep, hrest]

/-- The SQL text `Update` emits for the single fragment `id=?` contains
exactly one occurrence of `WHERE`, provided the resolved table name and
the emitted column names are `WHERE`-free. -/
theorem update_sql_occ (s : GoStruct)
    (hname : occCount "WHERE".toList (query.Name s).toList = 0)
    (hfields : ∀ x ∈ query.fields false s, occCount "WHERE".toList x.toList = 0) :
    strOcc "WHERE" ("UPDATE " ++ query.Name s ++ " SET " ++
      (strJoin (query.fields false s) "=?," ++ "=?") ++ " WHERE " ++
      (strJoin ["id=?"] "? AND " ++ "?") ++ ";") = 1 := by
  have hp : "WHERE".toList ≠ [] := by decide
  have hsp : ' ' ∉ "WHERE".toList := by decide
  have heq : '=' ∉ "WHERE".toList := by decide
  have hcols : occCount "WHERE".toList
      (strJoin (query.fields false s) "=?," ++ "=?").toList = 0 := by
    rw [strToList_append,
      occCount_append_head "WHERE".toList '=' hp heq _ _ (by decide),
      occ_strJoin_zero "WHERE".toList "=?," '=' ',' hp (by decide) (by decide)
        (by decide) (by decide) (by decide) _ hfields]
    decide
  rw [show "UPDATE " ++ query.Name s ++ " SET " ++
      (strJoin (query.fields false s) "=?," ++ "=?") ++ " WHERE " ++
      (strJoin ["id=?"] "? AND " ++ "?") ++ ";" =
      "UPDATE " ++ (query.Name s ++ (" SET " ++
        ((strJoin (query.fields false s) "=?," ++ "=?") ++ (" WHERE " ++
          ((strJoin ["id=?"] "? AND " ++ "?") ++ ";"))))) from by
    simp [String.append_assoc]
    rfl]
  rw [strOcc, strToList_append,
    occCount_append_last "WHERE".toList ' ' hp hsp "UPDATE ".toList _ (by decide),
    strToList_append,
    occCount_append_head "WHERE".toList ' ' hp hsp (query.Name s).toList _ (by
      rw [strToList_append]
      exact head?_append_left _ _ ' ' (by decide)),
    hname,
    strToList_append,
    occCount_append_last "WHERE".toList ' ' hp hsp " SET ".toList _ (by decide),
    strToList_append,
    occCount_append_head "WHERE".toList ' ' hp hsp _ _ (by
      rw [strToList_append]
      exact head?_append_left _ _ ' ' (by decide)),
    hcols]
  decide

/-- Claim C4 (counterexample): column names are emitted verbatim from the
`db` tag, so a field tagged `db:"WHERE"` makes `Update` succeed with SQL
containing TWO occurrences of `WHERE`, refuting "always exactly one". -/
theorem C4_counterexample :
    query.Update WhereTagT ["id=?"] =
      .ok "UPDATE wheretag SET WHERE=? WHERE id=??;" ∧
    strOcc "WHERE" "UPDATE wheretag SET WHERE=? WHERE id=??;" = 2 ∧
    (strOcc "WHERE" "UPDATE wheretag SET WHERE=? WHERE id=??;" == 1) = false := by
  refine ⟨rfl, by decide, by decide⟩

/-- Claim C4 (amended): for every struct type, `Update` with an empty
where list fails with `ErrWhereClauseRequiredForUpdate`; with the single
fragment `id=?` it always succeeds, returning exactly
`UPDATE <t> SET <f1>=?,...,<fn>=? WHERE id=??;`; and whenever the table
name and the emitted column names do not contain `WHERE` (a `db` tag may
contain it, since tags are emitted verbatim), the returned SQL contains
exactly one occurrence of `WHERE`. -/
theorem C4_amended_where_guard :
    (∀ (s : GoStruct),
      query.Update s [] = .error query.ErrWhereClauseRequiredForUpdate) ∧
    (∀ (s : GoStruct), query.Update s ["id=?"] =
      .ok ("UPDATE " ++ query.Name s ++ " SET " ++
        (strJoin (query.fields false s) "=?," ++ "=?") ++ " WHERE " ++
        (strJoin ["id=?"] "? AND " ++ "?") ++ ";")) ∧
    (∀ (s : GoStruct),
      strOcc "WHERE" (query.Name s) = 0 →
      (∀ x ∈ query.fields false s, strOcc "WHERE" x = 0) →
      ∃ sql, query.Update s ["id=?"] = .ok sql ∧ strOcc "WHERE" sql = 1) := by
  refine ⟨fun s => rfl, fun s => rfl, fun s hname hfields => ?_⟩
  exact ⟨_, rfl, update_sql_occ s hname hfields⟩

/-- Witness for C4 (amended) at the repository's `SomeTable` test type. -/
theorem C4_amended_witness :
    query.Update SomeTableT [] = .error query.ErrWhereClauseRequiredForUpdate ∧
    ∃ sql, query.Update SomeTableT ["id=?"] = .ok sql ∧
      strOcc "WHERE" sql = 1 := by
  exact ⟨C4_amended_where_guard.1 SomeTableT,
    C4_amended_where_guard.2.2 SomeTableT (by decide) (by decide)⟩
